import Mathlib

/-!
# Social network store: data model, persistence codec and feed

A shallow embedding of `socialnetwork.cpp`.

* `std::string` is a `List Char`, one list element per C++ `char`.
* `std::vector<T>` is a `List T`; `push_back` appends at the end.
* `std::map<std::string, std::vector<std::string>>` is an association list
  (`FriendMap`) whose keys are kept in strictly ascending order by `mapSet`,
  the order in which the C++ map is iterated.
* Text typed at the console and the clock reading are parameters of the
  operations.
* A file is the `List Char` of its contents.
-/

namespace SocialNet

/-- A `std::string`: a sequence of `char`. -/
abbrev Str := List Char

/-! ## Library functions used by the program -/

/-- The ordering `a < b` on `std::string` (lexicographic on characters, a
proper prefix being smaller). -/
def strLt : Str → Str → Bool
  | [], [] => false
  | [], _ :: _ => true
  | _ :: _, [] => false
  | a :: as, b :: bs =>
    if a < b then true else if b < a then false else strLt as bs

/-- The call `std::replace(first, last, old, new)` on a whole string. -/
def stdReplace (s : Str) (old new : Char) : Str :=
  s.map (fun c => if c = old then new else c)

/-- One step of insertion sort: `x` is placed in front of the first element
that the comparator orders after it. -/
def linearInsert {α : Type} (comp : α → α → Bool) (x : α) : List α → List α
  | [] => [x]
  | y :: l => if comp x y then x :: y :: l else y :: linearInsert comp x l

/-- The call `std::sort(first, last, comp)`. The standard fixes the result only
up to the order of equivalent elements; the model is insertion sort, taking the
elements from left to right. -/
def stdSort {α : Type} (comp : α → α → Bool) (l : List α) : List α :=
  l.foldl (fun acc x => linearInsert comp x acc) []

/-! ## Records -/

/-- The class `User`. -/
structure User where
  username : Str
  password : Str
  bio : Str
  deriving DecidableEq, Repr

/-- The class `Post`. The constructor takes `(postId, username, content, timestamp)`. -/
structure Post where
  postId : Str
  username : Str
  content : Str
  timestamp : Str
  deriving DecidableEq, Repr

/-- The comparator `ComparePostsByTimestamp`: `a.timestamp > b.timestamp`. -/
def comparePostsByTimestamp (a b : Post) : Bool :=
  strLt b.timestamp a.timestamp

/-- The function `sanitizeString`: two `std::replace` passes over a copy. -/
def sanitizeString (str : Str) : Str :=
  let sanitized := str
  let sanitized := stdReplace sanitized '|' '_'
  let sanitized := stdReplace sanitized '\n' ' '
  sanitized

/-! ## The friendship map -/

/-- The type `std::map<std::string, std::vector<std::string>>`, as its
entries in iteration order. -/
abbrev FriendMap := List (Str × List Str)

/-- The call `m.find(k)`: the value stored under `k`, if there is an entry. -/
def mapFind : FriendMap → Str → Option (List Str)
  | [], _ => none
  | (k', v) :: rest, k => if k' = k then some v else mapFind rest k

/-- Store `v` under `k`, replacing the entry of `k` or inserting a new entry
at its place in key order. -/
def mapSet : FriendMap → Str → List Str → FriendMap
  | [], k, v => [(k, v)]
  | (k', v') :: rest, k, v =>
    if k' = k then (k, v) :: rest
    else if strLt k k' then (k, v) :: (k', v') :: rest
    else (k', v') :: mapSet rest k v

/-- The statement `m[k].push_back(x)`: `operator[]` creates an empty vector
when `k` has no entry. -/
def mapPushBack (m : FriendMap) (k : Str) (x : Str) : FriendMap :=
  mapSet m k ((mapFind m k).getD [] ++ [x])

/-- The friend list of a user name: its vector, or empty without an entry. -/
def friendsOf (m : FriendMap) (k : Str) : List Str :=
  (mapFind m k).getD []

/-! ## Streams -/

/-- An input stream (`std::ifstream`, `std::stringstream`): the unread
characters and the two state flags the program depends on. -/
structure IStream where
  buf : Str
  eofbit : Bool
  failbit : Bool
  deriving DecidableEq, Repr

/-- A stream opened on the given text. -/
def IStream.ofText (text : Str) : IStream := ⟨text, false, false⟩

/-- Characters up to the first `delim`, and the text after that `delim` when
there is one. -/
def extractUntil (delim : Char) : Str → Str × Option Str
  | [] => ([], none)
  | c :: cs =>
    if c = delim then ([], some cs)
    else ((c :: (extractUntil delim cs).1), (extractUntil delim cs).2)

/-- The call `std::getline(is, str, delim)`, giving the stream afterwards and
the new value of `str`. On a stream that is not good the string is left as it
is and `failbit` is set; otherwise the string is erased and filled up to the
delimiter, which is consumed, or up to the end of input, which sets `eofbit`
(and `failbit` when nothing at all was extracted). -/
def getline (is : IStream) (str : Str) (delim : Char) : IStream × Str :=
  if is.eofbit || is.failbit then ({ is with failbit := true }, str)
  else
    match extractUntil delim is.buf with
    | (field, some rest) => ({ is with buf := rest }, field)
    | (field, none) => ({ buf := [], eofbit := true, failbit := field.isEmpty }, field)

/-- The loop `while (std::getline(file, line)) body`, run for at most `fuel`
calls of `getline`. -/
def getlineLoop {σ : Type} (body : σ → Str → σ) : Nat → IStream → Str → σ → σ
  | 0, _, _, acc => acc
  | fuel + 1, file, line, acc =>
    if (getline file line '\n').1.failbit then acc
    else getlineLoop body fuel (getline file line '\n').1 (getline file line '\n').2
      (body acc (getline file line '\n').2)

/-- The loop `while (std::getline(file, line)) body` over a whole file. Every
call but the last one consumes a character, so `text.length + 1` calls are
enough to reach the failing one. -/
def forEachLine {σ : Type} (body : σ → Str → σ) (text : Str) (acc : σ) : σ :=
  getlineLoop body (text.length + 1) (IStream.ofText text) [] acc

/-! ## The store -/

/-- The three data files; `none` is a file that does not exist. -/
structure Files where
  users : Option Str
  friendships : Option Str
  posts : Option Str
  deriving DecidableEq, Repr

/-- The data members of the class `SocialNetwork`. -/
structure SocialNetwork where
  users : List User
  friendships : FriendMap
  posts : List Post
  loggedInUser : Str
  deriving DecidableEq, Repr

/-- The members as the constructor's initialiser list leaves them. -/
def emptyStore : SocialNetwork :=
  { users := [], friendships := [], posts := [], loggedInUser := [] }

/-- The message an operation prints. -/
inductive Outcome where
  | usernameTaken
  | registered
  | pleaseLogIn
  | cannotAddYourself
  | userDoesNotExist
  | alreadyFriends
  | nowFriends
  | noFriendsToRemove
  | notFriendsWith
  | removedFriend
  | posted
  | truncatedAndPosted
  deriving DecidableEq, Repr

/-- The method `findUser`: the first user with that name, or `NULL`. -/
def findUser : List User → Str → Option User
  | [], _ => none
  | u :: rest, username => if u.username = username then some u else findUser rest username

/-- The method `userExists`. -/
def userExists (s : SocialNetwork) (username : Str) : Bool :=
  (findUser s.users username).isSome

/-- The method `generatePostId`: `"post_"` and the decimal `posts.size() + 1`. -/
def generatePostId (s : SocialNetwork) : Str :=
  "post_".toList ++ Nat.toDigits 10 (s.posts.length + 1)

/-- The method `isLoggedIn`. -/
def isLoggedIn (s : SocialNetwork) : Bool := !s.loggedInUser.isEmpty

/-- The method `getLoggedInUser`. -/
def getLoggedInUser (s : SocialNetwork) : Str := s.loggedInUser

/-! ## Loading -/

/-- Body of the user loop of `loadData`: decode one line. -/
def decodeUser (line : Str) : User :=
  let ss := IStream.ofText line
  let r1 := getline ss [] '|'
  let r2 := getline r1.1 [] '|'
  let r3 := getline r2.1 [] '\n'
  { username := r1.2, password := r2.2, bio := r3.2 }

/-- Body of the friendship loop of `loadData`: the two names of one line. -/
def decodeFriendship (line : Str) : Str × Str :=
  let ss := IStream.ofText line
  let r1 := getline ss [] '|'
  let r2 := getline r1.1 [] '\n'
  (r1.2, r2.2)

/-- Body of the friendship loop of `loadData`: both directions are stored. -/
def loadFriendshipLine (friendships : FriendMap) (line : Str) : FriendMap :=
  let user1 := (decodeFriendship line).1
  let user2 := (decodeFriendship line).2
  mapPushBack (mapPushBack friendships user1 user2) user2 user1

/-- Body of the post loop of `loadData`: decode one line. -/
def decodePost (line : Str) : Post :=
  let ss := IStream.ofText line
  let r1 := getline ss [] '|'
  let r2 := getline r1.1 [] '|'
  let r3 := getline r2.1 [] '|'
  let r4 := getline r3.1 [] '\n'
  { postId := r1.2, username := r2.2, content := r4.2, timestamp := r3.2 }

/-- The user part of `loadData` on an open file. -/
def loadUsers (text : Str) (users : List User) : List User :=
  forEachLine (fun users line => users ++ [decodeUser line]) text users

/-- The friendship part of `loadData` on an open file. -/
def loadFriendships (text : Str) (friendships : FriendMap) : FriendMap :=
  forEachLine loadFriendshipLine text friendships

/-- The post part of `loadData` on an open file. -/
def loadPosts (text : Str) (posts : List Post) : List Post :=
  forEachLine (fun posts line => posts ++ [decodePost line]) text posts

/-- The method `loadData`; a file that cannot be opened leaves its collection
as it is. -/
def loadData (files : Files) (s : SocialNetwork) : SocialNetwork :=
  { s with
    users := match files.users with
      | some text => loadUsers text s.users
      | none => s.users
    friendships := match files.friendships with
      | some text => loadFriendships text s.friendships
      | none => s.friendships
    posts := match files.posts with
      | some text => loadPosts text s.posts
      | none => s.posts }

/-- The constructor `SocialNetwork()`. -/
def SocialNetwork.construct (files : Files) : SocialNetwork :=
  loadData files emptyStore

/-! ## Saving -/

/-- The line written for one user, with its final newline. -/
def encodeUser (u : User) : Str :=
  u.username ++ ['|'] ++ u.password ++ ['|'] ++ sanitizeString u.bio ++ ['\n']

/-- The line written for one post, with its final newline. -/
def encodePost (p : Post) : Str :=
  p.postId ++ ['|'] ++ p.username ++ ['|'] ++ p.timestamp ++ ['|']
    ++ sanitizeString p.content ++ ['\n']

/-- The line written for one friendship, with its final newline. -/
def encodeFriendship (user1 user2 : Str) : Str :=
  user1 ++ ['|'] ++ user2 ++ ['\n']

/-- The user part of `saveData`: the text written to the user file. -/
def saveUsers (users : List User) : Str :=
  users.foldl (fun out u => out ++ encodeUser u) []

/-- The post part of `saveData`: the text written to the post file. -/
def savePosts (posts : List Post) : Str :=
  posts.foldl (fun out p => out ++ encodePost p) []

/-- The test that guards the write of `user1|user2`: the reverse pair is not
yet in `savedPairs`. -/
def notYetSaved (savedPairs : FriendMap) (user1 user2 : Str) : Bool :=
  match mapFind savedPairs user2 with
  | none => true
  | some saved => !saved.contains user1

/-- Inner loop of the friendship part of `saveData`: the pairs
`(user1, user2)` written for one map entry, in order. -/
def savedPairsOfEntry (savedPairs : FriendMap) (user1 : Str) (friends : List Str) :
    List (Str × Str) :=
  (friends.filter (fun user2 => notYetSaved savedPairs user1 user2)).map
    (fun user2 => (user1, user2))

/-- Outer loop of the friendship part of `saveData` over the remaining map
entries: the pairs written, in order. -/
def friendshipRecordsFrom : FriendMap → FriendMap → List (Str × Str)
  | [], _ => []
  | (user1, friends) :: rest, savedPairs =>
    savedPairsOfEntry savedPairs user1 friends
      ++ friendshipRecordsFrom rest (mapSet savedPairs user1 friends)

/-- The pairs for which the friendship part of `saveData` writes a line. -/
def friendshipRecords (friendships : FriendMap) : List (Str × Str) :=
  friendshipRecordsFrom friendships []

/-- The lines of the friendship file, without their newline, in order. -/
def friendshipLines (friendships : FriendMap) : List Str :=
  (friendshipRecords friendships).map (fun r => r.1 ++ ['|'] ++ r.2)

/-- The friendship part of `saveData`: the text written to the friendship file. -/
def saveFriendships (friendships : FriendMap) : Str :=
  (friendshipRecords friendships).foldl (fun out r => out ++ encodeFriendship r.1 r.2) []

/-- The method `saveData`, every file opening for writing. -/
def saveData (s : SocialNetwork) : Files :=
  { users := some (saveUsers s.users)
    friendships := some (saveFriendships s.friendships)
    posts := some (savePosts s.posts) }

/-! ## Operations

Each method takes the text read from the console as arguments and gives the
store at its return together with what it reports. -/

/-- The method `registerUser`, with the three values read from the console. -/
def registerUser (s : SocialNetwork) (username password bio : Str) :
    SocialNetwork × Outcome :=
  if userExists s username then (s, Outcome.usernameTaken)
  else ({ s with users := s.users ++ [User.mk username password bio] }, Outcome.registered)

/-- The method `loginUser`, with the two values read from the console. -/
def loginUser (s : SocialNetwork) (username password : Str) : SocialNetwork × Bool :=
  match findUser s.users username with
  | some user =>
    if user.password = password then ({ s with loggedInUser := username }, true)
    else (s, false)
  | none => (s, false)

/-- The method `logoutUser`. -/
def logoutUser (s : SocialNetwork) : SocialNetwork :=
  { s with loggedInUser := [] }

/-- The method `addFriend`, with the name read from the console. -/
def addFriend (s : SocialNetwork) (friendUsername : Str) : SocialNetwork × Outcome :=
  if !isLoggedIn s then (s, Outcome.pleaseLogIn)
  else if friendUsername = s.loggedInUser then (s, Outcome.cannotAddYourself)
  else if !userExists s friendUsername then (s, Outcome.userDoesNotExist)
  else
    match mapFind s.friendships s.loggedInUser with
    | some friends =>
      if friends.contains friendUsername then (s, Outcome.alreadyFriends)
      else
        ({ s with friendships := (mapPushBack
            (mapPushBack s.friendships s.loggedInUser friendUsername)
            friendUsername s.loggedInUser) }, Outcome.nowFriends)
    | none =>
      ({ s with friendships := (mapPushBack
          (mapPushBack s.friendships s.loggedInUser friendUsername)
          friendUsername s.loggedInUser) }, Outcome.nowFriends)

/-- The erase-remove idiom `v.erase(std::remove(v.begin(), v.end(), x), v.end())`. -/
def eraseRemove (v : List Str) (x : Str) : List Str :=
  v.filter (fun y => y != x)

/-- The method `removeFriend`, with the name read from the console. When
`std::remove` finds nothing it moves nothing, so the early return leaves the
vector as it was. -/
def removeFriend (s : SocialNetwork) (friendUsername : Str) : SocialNetwork × Outcome :=
  if !isLoggedIn s then (s, Outcome.pleaseLogIn)
  else
    match mapFind s.friendships s.loggedInUser with
    | none => (s, Outcome.noFriendsToRemove)
    | some currentUsersFriends =>
      if (eraseRemove currentUsersFriends friendUsername).length = currentUsersFriends.length
      then (s, Outcome.notFriendsWith)
      else
        let friendships1 :=
          mapSet s.friendships s.loggedInUser (eraseRemove currentUsersFriends friendUsername)
        match mapFind friendships1 friendUsername with
        | some targetUsersFriends =>
          ({ s with friendships :=
              mapSet friendships1 friendUsername (eraseRemove targetUsersFriends s.loggedInUser) },
            Outcome.removedFriend)
        | none => ({ s with friendships := friendships1 }, Outcome.removedFriend)

/-- The method `viewFriends`: the names listed, or `none` for "not found". -/
def viewFriends (s : SocialNetwork) (username : Str) : Option (List Str) :=
  match findUser s.users username with
  | none => none
  | some _ =>
    match mapFind s.friendships username with
    | some friends => some friends
    | none => some []

/-- The method `postMessage`, with the line read from the console and the
value of `getCurrentTimestamp()`. -/
def postMessage (s : SocialNetwork) (content now : Str) : SocialNetwork × Outcome :=
  if !isLoggedIn s then (s, Outcome.pleaseLogIn)
  else if content.length > 255 then
    ({ s with posts := s.posts ++
        [Post.mk (generatePostId s) s.loggedInUser (content.take 255) now] },
      Outcome.truncatedAndPosted)
  else
    ({ s with posts := s.posts ++ [Post.mk (generatePostId s) s.loggedInUser content now] },
      Outcome.posted)

/-- The method `viewProfile`: the profile and the posts shown, or `none` for
"not found". -/
def viewProfile (s : SocialNetwork) (username : Str) : Option (User × List Post) :=
  match findUser s.users username with
  | some user => some (user, s.posts.filter (fun p => p.username = username))
  | none => none

/-- The vector `usersInFeed` built by `viewFeed`. -/
def usersInFeed (s : SocialNetwork) : List Str :=
  match mapFind s.friendships s.loggedInUser with
  | some friends => [s.loggedInUser] ++ friends
  | none => [s.loggedInUser]

/-- The method `viewFeed`: the posts displayed, in order, or `none` when
nobody is logged in. -/
def viewFeed (s : SocialNetwork) : Option (List Post) :=
  if !isLoggedIn s then none
  else
    let feedPosts := s.posts.filter (fun p => (usersInFeed s).contains p.username)
    some (stdSort comparePostsByTimestamp feedPosts)

/-- One call of a public method that can change the store, with its console input. -/
inductive Op where
  | register (username password bio : Str)
  | login (username password : Str)
  | logout
  | addFriend (friendUsername : Str)
  | removeFriend (friendUsername : Str)
  | post (content now : Str)
  deriving DecidableEq, Repr

/-- The store after one call. -/
def step (s : SocialNetwork) : Op → SocialNetwork
  | Op.register username password bio => (registerUser s username password bio).1
  | Op.login username password => (loginUser s username password).1
  | Op.logout => logoutUser s
  | Op.addFriend friendUsername => (addFriend s friendUsername).1
  | Op.removeFriend friendUsername => (removeFriend s friendUsername).1
  | Op.post content now => (postMessage s content now).1

/-- The store after a sequence of calls. -/
def run (s : SocialNetwork) (ops : List Op) : SocialNetwork :=
  ops.foldl step s

/-! ## Predicates used in the statements -/

/-- Mutuality of a friendship map. -/
def Mutual (m : FriendMap) : Prop :=
  ∀ a b : Str, a ∈ friendsOf m b ↔ b ∈ friendsOf m a

/-- The keys of a map are strictly ascending, as in every `std::map`. -/
def KeysAscending (m : FriendMap) : Prop :=
  m.Pairwise (fun e1 e2 => strLt e1.1 e2.1 = true)

/-- The calls of the scenario of the specification: alice and bob register,
alice befriends bob and posts at `t1`, bob posts at `t2`, alice logs in again. -/
def scenarioOps (t1 t2 : Str) : List Op :=
  [Op.register "alice".toList "pw1".toList "hi".toList,
   Op.register "bob".toList "pw2".toList "yo".toList,
   Op.login "alice".toList "pw1".toList,
   Op.addFriend "bob".toList,
   Op.post "hello".toList t1,
   Op.logout,
   Op.login "bob".toList "pw2".toList,
   Op.post "hey".toList t2,
   Op.logout,
   Op.login "alice".toList "pw1".toList]

/-- The store of the scenario with two concrete clock readings. -/
def scenarioStore : SocialNetwork :=
  run emptyStore (scenarioOps "2024-05-01 10:00:00".toList "2024-05-01 10:00:05".toList)

/-- The visibility test of the feed as the specification words it: the author
is the session user or one of the session user's friends. -/
def visibleTo (s : SocialNetwork) (p : Post) : Bool :=
  decide (p.username = s.loggedInUser ∨ p.username ∈ friendsOf s.friendships s.loggedInUser)

/-- The string comparison `a >= b`. -/
def strGe (a b : Str) : Bool := !strLt a b

/-- A list is ordered by `comp` when no element is ordered before an earlier one. -/
def OrderedBy {α : Type} (comp : α → α → Bool) (l : List α) : Prop :=
  l.Pairwise (fun a b => comp b a = false)

/-- A store with three users in which alice is logged in and friends with bob. -/
def friendsStore : SocialNetwork :=
  run emptyStore
    [Op.register "alice".toList "pw1".toList "hi".toList,
     Op.register "bob".toList "pw2".toList "yo".toList,
     Op.register "carol".toList "pw3".toList "hey".toList,
     Op.login "alice".toList "pw1".toList,
     Op.addFriend "bob".toList]

/-- No two users of the list have the same name. -/
def UniqueUsernames (users : List User) : Prop :=
  users.Pairwise (fun u v => u.username ≠ v.username)

/-- What sanitizing does to one character, in the words of the
specification: the delimiter becomes `_`, a newline becomes a space. -/
def sanitizeChar (c : Char) : Char :=
  if c = '|' then '_' else if c = '\n' then ' ' else c

/-- The text of a file made of the given lines, each ended by a newline. -/
def joinLines (lines : List Str) : Str :=
  lines.foldl (fun out line => out ++ line ++ ['\n']) []

/-- A friendship file of two lines. -/
def sampleFriendshipLines : List Str :=
  ["alice|bob".toList, "bob|carol".toList]

/-- The data files with only the friendship file of `sampleFriendshipLines`. -/
def sampleFiles : Files :=
  { users := none, friendships := some (joinLines sampleFriendshipLines), posts := none }

/-- A user registers under a name that holds the delimiter. -/
def barNameOps : List Op :=
  [Op.register "a|b".toList "pw".toList "hi".toList]

/-- The user `a|b` registers, logs in and posts. -/
def barNamePostOps : List Op :=
  [Op.register "a|b".toList "pw".toList "hi".toList,
   Op.login "a|b".toList "pw".toList,
   Op.post "hello".toList "2024-05-01 10:00:00".toList]

/-- The users `a|b` and `c` register and `c` befriends `a|b`. -/
def barFriendOps : List Op :=
  [Op.register "a|b".toList "pw".toList "hi".toList,
   Op.register "c".toList "pw".toList "yo".toList,
   Op.login "c".toList "pw".toList,
   Op.addFriend "a|b".toList]

/-- Four users `x`, `x|y`, `y|z`, `z` register; `x` befriends `y|z` and `z`
befriends `x|y`. -/
def barPairsOps : List Op :=
  [Op.register "x".toList "pw".toList "hi".toList,
   Op.register "x|y".toList "pw".toList "hi".toList,
   Op.register "y|z".toList "pw".toList "hi".toList,
   Op.register "z".toList "pw".toList "hi".toList,
   Op.login "x".toList "pw".toList,
   Op.addFriend "y|z".toList,
   Op.logout,
   Op.login "z".toList "pw".toList,
   Op.addFriend "x|y".toList]

/-- No user is in their own friend list. -/
def NoSelfLoops (m : FriendMap) : Prop :=
  ∀ e ∈ m, e.1 ∉ e.2

/-- No friend list holds a name twice. -/
def NoDuplicateFriends (m : FriendMap) : Prop :=
  ∀ e ∈ m, e.2.Nodup

/-- A string that holds neither the delimiter nor a newline. -/
def DelimiterFree (str : Str) : Prop :=
  '|' ∉ str ∧ '\n' ∉ str

/-- The line of a user record, without its final newline. -/
def userLine (u : User) : Str :=
  u.username ++ ['|'] ++ u.password ++ ['|'] ++ sanitizeString u.bio

/-- The line of a post record, without its final newline. -/
def postLine (p : Post) : Str :=
  p.postId ++ ['|'] ++ p.username ++ ['|'] ++ p.timestamp ++ ['|'] ++ sanitizeString p.content

/-- The line of a friendship record, without its final newline. -/
def friendshipLine (r : Str × Str) : Str :=
  r.1 ++ ['|'] ++ r.2

/-- A console line of 300 characters. -/
def longContent : Str :=
  List.replicate 300 'a'

/-- The data files that `saveData` writes after a registration at the end of
the console input, where the three values read are empty. -/
def blankUserFiles : Files :=
  saveData (run emptyStore [Op.register [] [] []])

/-- The store the constructor builds from `blankUserFiles`. -/
def blankUserStore : SocialNetwork :=
  SocialNetwork.construct blankUserFiles

/-- The value of a decimal digit character. -/
def digitValue (c : Char) : Nat := c.toNat - '0'.toNat

/-- The number that a decimal numeral denotes. -/
def decimalValue (ds : Str) : Nat :=
  ds.foldl (fun acc c => acc * 10 + digitValue c) 0

/-- The ids `post_1`, `post_2`, ... of a list of `n` posts, in order. -/
def postIdsUpTo (n : Nat) : List Str :=
  (List.range n).map (fun i => "post_".toList ++ Nat.toDigits 10 (i + 1))

/-- An entry of the map lists neither its own key nor a name twice. -/
def CleanEntry (e : Str × List Str) : Prop :=
  e.1 ∉ e.2 ∧ e.2.Nodup

/-- The fields of a record line in the words of the specification, for a
record of `n` fields: the `|`-separated parts in order, the last field taking
the rest of the line, and the empty string for every missing trailing field. -/
def specFields : Nat → Str → List Str
  | 0, _ => []
  | 1, line => [line]
  | n + 2, line =>
    if '|' ∈ line then
      line.takeWhile (fun c => c != '|') ::
        specFields (n + 1) ((line.dropWhile (fun c => c != '|')).drop 1)
    else line :: List.replicate (n + 1) []

/-- The fields of `struct tm` as `strftime` prints them: the year with its
century, the month from 1. -/
structure Tm where
  year : Nat
  month : Nat
  day : Nat
  hour : Nat
  minute : Nat
  second : Nat
  deriving DecidableEq, Repr

/-- A number below 100 in two digits, zero-padded (`%m`, `%d`, `%H`, `%M`, `%S`). -/
def pad2 (n : Nat) : Str :=
  [Nat.digitChar (n / 10), Nat.digitChar (n % 10)]

/-- A number below 10000 in four digits, zero-padded. -/
def pad4 (n : Nat) : Str :=
  pad2 (n / 100) ++ pad2 (n % 100)

/-- The fixed format `YYYY-MM-DD HH:MM:SS` of the specification. -/
def formatTimestamp (t : Tm) : Str :=
  pad4 t.year ++ ['-'] ++ pad2 t.month ++ ['-'] ++ pad2 t.day ++ [' '] ++
    pad2 t.hour ++ [':'] ++ pad2 t.minute ++ [':'] ++ pad2 t.second

/-- The function `getCurrentTimestamp`, with the local time that
`std::localtime(&now)` points to: `strftime` with `"%Y-%m-%d %H:%M:%S"`, where
`%Y` is the year as a decimal number. -/
def getCurrentTimestamp (tm : Tm) : Str :=
  Nat.toDigits 10 tm.year ++ ['-'] ++ pad2 tm.month ++ ['-'] ++ pad2 tm.day ++ [' '] ++
    pad2 tm.hour ++ [':'] ++ pad2 tm.minute ++ [':'] ++ pad2 tm.second

/-- The fields fit the fixed format: a four-digit year and two digits each
for month, day, hour, minute and second. -/
def Tm.Fits (t : Tm) : Prop :=
  t.year < 10000 ∧ t.month < 100 ∧ t.day < 100 ∧ t.hour < 100 ∧ t.minute < 100 ∧
    t.second < 100

/-- The time `a` is strictly later than `b`, as the tuple (year, month, day,
hour, minute, second). -/
def Tm.Later (a b : Tm) : Prop :=
  b.year < a.year ∨ (b.year = a.year ∧
    (b.month < a.month ∨ (b.month = a.month ∧
      (b.day < a.day ∨ (b.day = a.day ∧
        (b.hour < a.hour ∨ (b.hour = a.hour ∧
          (b.minute < a.minute ∨ (b.minute = a.minute ∧ b.second < a.second)))))))))

/-- Two sample times, one second apart across a change of year. -/
def newYearsEve : Tm :=
  { year := 2023, month := 12, day := 31, hour := 23, minute := 59, second := 59 }

/-- The second after `newYearsEve`. -/
def newYear : Tm :=
  { year := 2024, month := 1, day := 1, hour := 0, minute := 0, second := 0 }

end SocialNet

/-! # Number guessing game

A shallow embedding of `Number_Guessing_Game.cpp`. An `int` is an `Int` within
the 32-bit bounds; an operation whose result leaves the bounds, or a remainder
by zero, is undefined and gives `none`. The value of `rand()` and what the
player types are parameters. -/

namespace GuessingGame

/-- The least `int`. -/
def intMin : Int := -2147483648

/-- The greatest `int`. -/
def intMax : Int := 2147483647

/-- The result of an `int` operation with mathematical value `x`: defined when
`x` is an `int`. -/
def checked (x : Int) : Option Int :=
  if intMin ≤ x ∧ x ≤ intMax then some x else none

/-- The expression `a - b` on `int`. -/
def intSub (a b : Int) : Option Int := checked (a - b)

/-- The expression `a + b` on `int`. -/
def intAdd (a b : Int) : Option Int := checked (a + b)

/-- The expression `a % b` on `int`: the remainder of the truncating
division, undefined for `b == 0` and when the quotient is not an `int`. -/
def intMod (a b : Int) : Option Int :=
  if b = 0 then none
  else if a = intMin ∧ b = -1 then none
  else some (Int.tmod a b)

/-- What two's complement hardware leaves where `int` arithmetic overflows:
the value reduced modulo `2^32` into the `int` bounds. -/
def wrap (x : Int) : Int :=
  (x + 2147483648) % 4294967296 - 2147483648

/-- The three parameters of a round. -/
structure Settings where
  minRange : Int
  maxRange : Int
  maxAttempts : Int
  deriving DecidableEq, Repr

/-- The `switch (difficultyChoice)`, with the three values that the input loops
of the custom case accept; before it the round reset sets the range 1 to 100
and `maxAttempts = 0`. -/
def settings (difficultyChoice customMin customMax customAttempts : Int) : Settings :=
  if difficultyChoice = 1 then { minRange := 1, maxRange := 50, maxAttempts := 7 }
  else if difficultyChoice = 2 then { minRange := 1, maxRange := 100, maxAttempts := 10 }
  else if difficultyChoice = 3 then { minRange := 1, maxRange := 200, maxAttempts := 12 }
  else if difficultyChoice = 4 then
    { minRange := customMin, maxRange := customMax, maxAttempts := customAttempts }
  else { minRange := 1, maxRange := 100, maxAttempts := 0 }

/-- The custom values that the three input loops let through: each is an `int`
that `std::cin >>` read, with `maxRange > minRange` and `maxAttempts > 0`. -/
def CustomAccepted (customMin customMax customAttempts : Int) : Prop :=
  (intMin ≤ customMin ∧ customMin ≤ intMax) ∧ (intMin ≤ customMax ∧ customMax ≤ intMax) ∧
    (intMin ≤ customAttempts ∧ customAttempts ≤ intMax) ∧
    customMin < customMax ∧ 0 < customAttempts

/-- The statement `randomNumber = (rand() % (maxRange - minRange + 1)) + minRange`,
with `r` the value of `rand()`. -/
def randomNumber (r minRange maxRange : Int) : Option Int :=
  (intSub maxRange minRange).bind fun d =>
    (intAdd d 1).bind fun n =>
      (intMod r n).bind fun m => intAdd m minRange

/-- One reading of `std::cin >> guess`: a number, or a failed extraction
together with the value it leaves in `guess`. -/
inductive GuessInput where
  | number (g : Int)
  | invalid (left : Int)
  deriving DecidableEq, Repr

/-- The variables of the inner loop, with the guesses counted so far and
whether the congratulation was printed. -/
structure RoundState where
  guess : Int
  attempts : Int
  entered : List Int
  congratulated : Bool
  deriving DecidableEq, Repr

/-- The loop `while (guess != randomNumber && attempts < maxAttempts)` over the
readings that follow; the flag tells whether the loop has ended (it has not
when the readings run out while the condition holds). -/
def guessLoop (randomNumber maxAttempts : Int) : RoundState → List GuessInput → RoundState × Bool
  | st, [] => (st, !decide (st.guess ≠ randomNumber ∧ st.attempts < maxAttempts))
  | st, input :: rest =>
    if st.guess ≠ randomNumber ∧ st.attempts < maxAttempts then
      match input with
      | GuessInput.invalid left =>
        guessLoop randomNumber maxAttempts { st with guess := left } rest
      | GuessInput.number g =>
        guessLoop randomNumber maxAttempts
          { guess := g
            attempts := st.attempts + 1
            entered := st.entered ++ [g]
            congratulated := st.congratulated || (g == randomNumber) } rest
    else (st, true)

/-- The variables at the start of a round: `attempts = 0; guess = 0;`. -/
def roundStart : RoundState :=
  { guess := 0, attempts := 0, entered := [], congratulated := false }

/-- What a round shows: the guesses counted, the attempts, whether the loop
ended, whether the congratulation and whether the "ran out of attempts"
message was printed. -/
structure RoundReport where
  entered : List Int
  attempts : Int
  ended : Bool
  won : Bool
  lost : Bool
  deriving DecidableEq, Repr

/-- The inner loop and the check `if (guess != randomNumber)` after it. -/
def playRound (randomNumber maxAttempts : Int) (inputs : List GuessInput) : RoundReport :=
  let r := guessLoop randomNumber maxAttempts roundStart inputs
  { entered := r.1.entered
    attempts := r.1.attempts
    ended := r.2
    won := r.1.congratulated
    lost := r.2 && decide (r.1.guess ≠ randomNumber) }

/-- Every reading is a number. -/
def AllNumbers (inputs : List GuessInput) : Prop :=
  ∀ i ∈ inputs, ∃ g : Int, i = GuessInput.number g

/-- The loop invariant when the secret is not the start value of `guess`. -/
def RoundInv (randomNumber maxAttempts : Int) (st : RoundState) : Prop :=
  st.attempts = st.entered.length ∧ st.attempts ≤ maxAttempts ∧
    (st.congratulated = true ↔ randomNumber ∈ st.entered) ∧
    (st.guess = randomNumber ↔ randomNumber ∈ st.entered)

end GuessingGame

/-! # Properties -/

namespace SocialNet

/-! ## The string order -/

theorem strLt_irrefl (a : Str) : strLt a a = false := by
  induction a with
  | nil => rfl
  | cons c cs ih => simp [strLt, ih]

theorem strLt_asymm : ∀ a b : Str, strLt a b = true → strLt b a = false
  | [], [], h => by simp [strLt] at h
  | [], _ :: _, _ => by simp [strLt]
  | _ :: _, [], h => by simp [strLt] at h
  | a :: as, b :: bs, h => by
    simp only [strLt] at h ⊢
    by_cases hab : a < b
    · have hba : ¬ b < a := lt_asymm hab
      simp [hba, hab]
    · by_cases hba : b < a
      · simp [hab, hba] at h
      · simp only [hab, hba, if_false] at h ⊢
        exact strLt_asymm as bs h

theorem strLt_trans : ∀ a b c : Str, strLt a b = true → strLt b c = true → strLt a c = true
  | [], _, [], _, h2 => by
    cases ‹Str› <;> simp [strLt] at h2
  | [], _, _ :: _, _, _ => by simp [strLt]
  | _ :: _, [], _, h1, _ => by simp [strLt] at h1
  | _ :: _, _ :: _, [], _, h2 => by simp [strLt] at h2
  | a :: as, b :: bs, c :: cs, h1, h2 => by
    simp only [strLt] at h1 h2 ⊢
    by_cases hab : a < b
    · by_cases hbc : b < c
      · simp [lt_trans hab hbc]
      · by_cases hcb : c < b
        · simp [hbc, hcb] at h2
        · have hbceq : b = c := le_antisymm (not_lt.mp hcb) (not_lt.mp hbc)
          subst hbceq
          simp [hab]
    · by_cases hba : b < a
      · simp [hab, hba] at h1
      · have habeq : a = b := le_antisymm (not_lt.mp hba) (not_lt.mp hab)
        subst habeq
        simp only [hab, if_false] at h1
        by_cases hac : a < c
        · simp [hac]
        · by_cases hca : c < a
          · simp [hac, hca] at h2
          · simp only [hac, hca, if_false] at h2 ⊢
            exact strLt_trans as bs cs h1 h2

theorem strLt_total : ∀ a b : Str, strLt a b = false → strLt b a = false → a = b
  | [], [], _, _ => rfl
  | [], _ :: _, h, _ => by simp [strLt] at h
  | _ :: _, [], _, h => by simp [strLt] at h
  | a :: as, b :: bs, h1, h2 => by
    simp only [strLt] at h1 h2
    by_cases hab : a < b
    · simp [hab] at h1
    · by_cases hba : b < a
      · simp [hba] at h2
      · have habeq : a = b := le_antisymm (not_lt.mp hba) (not_lt.mp hab)
        subst habeq
        simp only [hab, if_false] at h1 h2
        rw [strLt_total as bs h1 h2]

/-! ## Sorting -/

theorem linearInsert_perm {α : Type} (comp : α → α → Bool) (x : α) (l : List α) :
    (linearInsert comp x l).Perm (x :: l) := by
  induction l with
  | nil => exact List.Perm.refl _
  | cons y l ih =>
    simp only [linearInsert]
    split
    · exact List.Perm.refl _
    · exact (List.Perm.cons y ih).trans (List.Perm.swap x y l)

theorem foldl_linearInsert_perm {α : Type} (comp : α → α → Bool) (l acc : List α) :
    (l.foldl (fun acc x => linearInsert comp x acc) acc).Perm (acc ++ l) := by
  induction l generalizing acc with
  | nil => simp
  | cons x l ih =>
    simp only [List.foldl_cons]
    refine (ih _).trans ?_
    refine (List.Perm.append_right l (linearInsert_perm comp x acc)).trans ?_
    simpa using (@List.perm_middle _ x acc l).symm

theorem stdSort_perm {α : Type} (comp : α → α → Bool) (l : List α) :
    (stdSort comp l).Perm l := by
  simpa [stdSort] using foldl_linearInsert_perm comp l []

theorem linearInsert_ordered {α : Type} (comp : α → α → Bool)
    (hasymm : ∀ a b, comp a b = true → comp b a = false)
    (htrans : ∀ a b c, comp a b = true → comp b c = true → comp a c = true)
    (x : α) (l : List α) (hl : OrderedBy comp l) : OrderedBy comp (linearInsert comp x l) := by
  induction l with
  | nil => simp [linearInsert, OrderedBy]
  | cons y l ih =>
    unfold OrderedBy at hl ih ⊢
    rw [List.pairwise_cons] at hl
    simp only [linearInsert]
    by_cases hxy : comp x y = true
    · simp only [hxy, if_true]
      refine List.pairwise_cons.mpr ⟨?_, List.pairwise_cons.mpr hl⟩
      intro z hz
      rcases List.mem_cons.mp hz with rfl | hz
      · exact hasymm _ _ hxy
      · have hzy := hl.1 z hz
        cases hzx : comp z x with
        | false => rfl
        | true => rw [htrans z x y hzx hxy] at hzy; exact absurd hzy (by simp)
    · simp only [hxy]
      refine List.pairwise_cons.mpr ⟨?_, ih hl.2⟩
      intro z hz
      rcases List.mem_cons.mp ((linearInsert_perm comp x l).subset hz) with rfl | hz
      · simpa using hxy
      · exact hl.1 z hz

theorem stdSort_ordered {α : Type} (comp : α → α → Bool)
    (hasymm : ∀ a b, comp a b = true → comp b a = false)
    (htrans : ∀ a b c, comp a b = true → comp b c = true → comp a c = true)
    (l : List α) : OrderedBy comp (stdSort comp l) := by
  have key : ∀ (l acc : List α), OrderedBy comp acc →
      OrderedBy comp (l.foldl (fun acc x => linearInsert comp x acc) acc) := by
    intro l
    induction l with
    | nil => intro acc h; simpa using h
    | cons x l ih =>
      intro acc h
      exact ih _ (linearInsert_ordered comp hasymm htrans x acc h)
  exact key l [] (by simp [OrderedBy])

/-! ## The feed -/

theorem mem_usersInFeed (s : SocialNetwork) (name : Str) :
    (usersInFeed s).contains name = true ↔
      (name = s.loggedInUser ∨ name ∈ friendsOf s.friendships s.loggedInUser) := by
  unfold usersInFeed friendsOf
  cases mapFind s.friendships s.loggedInUser <;> simp

theorem feed_filter_eq (s : SocialNetwork) :
    s.posts.filter (fun p => (usersInFeed s).contains p.username) = s.posts.filter (visibleTo s) := by
  apply List.filter_congr
  intro p _
  have h := mem_usersInFeed s p.username
  unfold visibleTo
  by_cases hv : p.username = s.loggedInUser ∨ p.username ∈ friendsOf s.friendships s.loggedInUser
  · simp only [hv, decide_True, h.mpr hv]
  · have : ¬ ((usersInFeed s).contains p.username = true) := fun hc => hv (h.mp hc)
    simp only [hv, decide_False]
    simpa using this

theorem viewFeed_eq (s : SocialNetwork) (h : isLoggedIn s = true) :
    viewFeed s = some (stdSort comparePostsByTimestamp (s.posts.filter (visibleTo s))) := by
  unfold viewFeed
  simp only [h, Bool.not_true, if_false, Bool.false_eq_true]
  rw [feed_filter_eq]

/-- C1: for every store and logged-in user, `viewFeed` displays a permutation
of the stored posts whose author is the user or one of the user's friends: each
such post as often as it is stored, and no post of any other author. -/
theorem viewFeed_shows_exactly_visible_posts (s : SocialNetwork) (h : isLoggedIn s = true) :
    ∃ feed, viewFeed s = some feed ∧
      feed.Perm (s.posts.filter (visibleTo s)) ∧
      (∀ p : Post, (p.username = s.loggedInUser ∨
          p.username ∈ friendsOf s.friendships s.loggedInUser) →
        feed.count p = s.posts.count p) ∧
      (∀ p : Post, ¬ (p.username = s.loggedInUser ∨
          p.username ∈ friendsOf s.friendships s.loggedInUser) →
        feed.count p = 0) := by
  refine ⟨_, viewFeed_eq s h, stdSort_perm _ _, ?_, ?_⟩
  · intro p hp
    rw [(stdSort_perm comparePostsByTimestamp _).count_eq p]
    exact List.count_filter (by simpa [visibleTo] using hp)
  · intro p hp
    rw [(stdSort_perm comparePostsByTimestamp _).count_eq p, List.count_eq_zero]
    intro hmem
    have := (List.mem_filter.mp hmem).2
    exact hp (by simpa [visibleTo] using this)

/-- Witness of C1 on the store of the scenario, where alice is logged in. -/
theorem viewFeed_shows_exactly_visible_posts_witness :
    isLoggedIn scenarioStore = true ∧
    ∃ feed, viewFeed scenarioStore = some feed ∧
      feed.Perm (scenarioStore.posts.filter (visibleTo scenarioStore)) ∧
      (∀ p : Post, (p.username = scenarioStore.loggedInUser ∨
          p.username ∈ friendsOf scenarioStore.friendships scenarioStore.loggedInUser) →
        feed.count p = scenarioStore.posts.count p) ∧
      (∀ p : Post, ¬ (p.username = scenarioStore.loggedInUser ∨
          p.username ∈ friendsOf scenarioStore.friendships scenarioStore.loggedInUser) →
        feed.count p = 0) :=
  ⟨by decide, viewFeed_shows_exactly_visible_posts scenarioStore (by decide)⟩

theorem comparePosts_asymm (a b : Post) (h : comparePostsByTimestamp a b = true) :
    comparePostsByTimestamp b a = false :=
  strLt_asymm _ _ h

theorem comparePosts_trans (a b c : Post) (h1 : comparePostsByTimestamp a b = true)
    (h2 : comparePostsByTimestamp b c = true) : comparePostsByTimestamp a c = true :=
  strLt_trans _ _ _ h2 h1

theorem generatePostId_second (s : SocialNetwork) (p : Post) (h : s.posts = [p]) :
    generatePostId s = "post_2".toList := by
  unfold generatePostId
  rw [h]
  show "post_".toList ++ Nat.toDigits 10 2 = "post_2".toList
  decide

theorem scenario_run_eq (t1 t2 : Str) :
    run emptyStore (scenarioOps t1 t2) =
      { users := [User.mk "alice".toList "pw1".toList "hi".toList,
                  User.mk "bob".toList "pw2".toList "yo".toList]
        friendships := [("alice".toList, ["bob".toList]), ("bob".toList, ["alice".toList])]
        posts := [Post.mk "post_1".toList "alice".toList "hello".toList t1,
                  Post.mk "post_2".toList "bob".toList "hey".toList t2]
        loggedInUser := "alice".toList } := by
  have h1 : run emptyStore ((scenarioOps t1 t2).take 7) =
      { users := [User.mk "alice".toList "pw1".toList "hi".toList,
                  User.mk "bob".toList "pw2".toList "yo".toList]
        friendships := [("alice".toList, ["bob".toList]), ("bob".toList, ["alice".toList])]
        posts := [Post.mk "post_1".toList "alice".toList "hello".toList t1]
        loggedInUser := "bob".toList } := rfl
  have h2 : scenarioOps t1 t2 = (scenarioOps t1 t2).take 7 ++
      [Op.post "hey".toList t2, Op.logout, Op.login "alice".toList "pw1".toList] := rfl
  rw [h2, run, List.foldl_append]
  rw [run] at h1
  rw [h1]
  simp only [List.foldl, step, postMessage]
  rw [generatePostId_second _ _ rfl]
  rfl

theorem scenario_feed_eq (t1 t2 : Str) :
    viewFeed (run emptyStore (scenarioOps t1 t2)) =
      some (if strLt t1 t2 = true then
          [Post.mk "post_2".toList "bob".toList "hey".toList t2,
           Post.mk "post_1".toList "alice".toList "hello".toList t1]
        else
          [Post.mk "post_1".toList "alice".toList "hello".toList t1,
           Post.mk "post_2".toList "bob".toList "hey".toList t2]) := by
  rw [scenario_run_eq]
  rfl

/-- C2: for every store and logged-in user the feed of `viewFeed` is in
descending timestamp order, `p.timestamp >= q.timestamp` for consecutive posts
`p`, `q`; and in the scenario (alice and bob friends, alice posts at `t1`, bob
at `t2 > t1`) alice's feed is bob's post followed by alice's post. -/
theorem viewFeed_descending_timestamps :
    (∀ s : SocialNetwork, isLoggedIn s = true →
      ∃ feed, viewFeed s = some feed ∧
        List.Chain' (fun p q : Post => strGe p.timestamp q.timestamp = true) feed) ∧
    (∀ t1 t2 : Str, strLt t1 t2 = true →
      (run emptyStore (scenarioOps t1 t2)).friendships =
          [("alice".toList, ["bob".toList]), ("bob".toList, ["alice".toList])] ∧
        (run emptyStore (scenarioOps t1 t2)).loggedInUser = "alice".toList ∧
        viewFeed (run emptyStore (scenarioOps t1 t2)) =
          some [Post.mk "post_2".toList "bob".toList "hey".toList t2,
                Post.mk "post_1".toList "alice".toList "hello".toList t1]) := by
  constructor
  · intro s h
    refine ⟨_, viewFeed_eq s h, ?_⟩
    have hsorted := stdSort_ordered comparePostsByTimestamp comparePosts_asymm
      comparePosts_trans (s.posts.filter (visibleTo s))
    refine List.Pairwise.chain' (List.Pairwise.imp ?_ hsorted)
    intro p q hpq
    simpa [strGe, comparePostsByTimestamp] using hpq
  · intro t1 t2 h
    refine ⟨?_, ?_, ?_⟩
    · rw [scenario_run_eq]
    · rw [scenario_run_eq]
    · rw [scenario_feed_eq, if_pos h]

/-- Witness of C2 on the store of the scenario and its two clock readings. -/
theorem viewFeed_descending_timestamps_witness :
    (isLoggedIn scenarioStore = true ∧
      ∃ feed, viewFeed scenarioStore = some feed ∧
        List.Chain' (fun p q : Post => strGe p.timestamp q.timestamp = true) feed) ∧
    (strLt "2024-05-01 10:00:00".toList "2024-05-01 10:00:05".toList = true ∧
      viewFeed scenarioStore =
        some [Post.mk "post_2".toList "bob".toList "hey".toList "2024-05-01 10:00:05".toList,
              Post.mk "post_1".toList "alice".toList "hello".toList
                "2024-05-01 10:00:00".toList]) :=
  ⟨⟨by decide, viewFeed_descending_timestamps.1 scenarioStore (by decide)⟩,
   ⟨by decide, (viewFeed_descending_timestamps.2 _ _ (by decide)).2.2⟩⟩

/-! ## The friendship map -/

theorem mapFind_mapSet (m : FriendMap) (k : Str) (v : List Str) (k' : Str) :
    mapFind (mapSet m k v) k' = if k = k' then some v else mapFind m k' := by
  induction m with
  | nil => simp [mapSet, mapFind]
  | cons e rest ih =>
    obtain ⟨ke, ve⟩ := e
    simp only [mapSet]
    by_cases h1 : ke = k
    · subst h1
      simp only [if_true, mapFind]
      split <;> rfl
    · simp only [h1, if_false]
      by_cases h2 : strLt k ke = true
      · simp only [h2, if_true, mapFind]
      · simp only [h2, mapFind, ih]
        by_cases h3 : ke = k'
        · subst h3
          have : ¬ k = ke := fun h => h1 h.symm
          simp [this]
        · simp [h3]

theorem friendsOf_mapSet (m : FriendMap) (k : Str) (v : List Str) (k' : Str) :
    friendsOf (mapSet m k v) k' = if k = k' then v else friendsOf m k' := by
  unfold friendsOf
  rw [mapFind_mapSet]
  split <;> rfl

theorem friendsOf_mapPushBack (m : FriendMap) (k x k' : Str) :
    friendsOf (mapPushBack m k x) k' =
      if k = k' then friendsOf m k ++ [x] else friendsOf m k' := by
  unfold mapPushBack
  rw [friendsOf_mapSet]
  rfl

theorem mem_friendsOf_pushBoth (m : FriendMap) (a b k x : Str) :
    x ∈ friendsOf (mapPushBack (mapPushBack m a b) b a) k ↔
      (x ∈ friendsOf m k ∨ (k = a ∧ x = b) ∨ (k = b ∧ x = a)) := by
  rw [friendsOf_mapPushBack, friendsOf_mapPushBack, friendsOf_mapPushBack]
  by_cases hbk : b = k
  · subst hbk
    by_cases hab : a = b
    · subst hab
      simp
    · have hba : ¬ b = a := fun h => hab h.symm
      simp [hab, hba]
  · have hkb : ¬ k = b := fun h => hbk h.symm
    by_cases hak : a = k
    · subst hak
      simp [hbk, hkb]
    · have hka : ¬ k = a := fun h => hak h.symm
      simp [hbk, hak, hka, hkb]

theorem mutual_pushBoth (m : FriendMap) (a b : Str) (h : Mutual m) :
    Mutual (mapPushBack (mapPushBack m a b) b a) := by
  intro x y
  rw [mem_friendsOf_pushBoth, mem_friendsOf_pushBoth, h x y]
  constructor
  · rintro (h1 | ⟨rfl, rfl⟩ | ⟨rfl, rfl⟩)
    · exact Or.inl h1
    · exact Or.inr (Or.inr ⟨rfl, rfl⟩)
    · exact Or.inr (Or.inl ⟨rfl, rfl⟩)
  · rintro (h1 | ⟨rfl, rfl⟩ | ⟨rfl, rfl⟩)
    · exact Or.inl h1
    · exact Or.inr (Or.inr ⟨rfl, rfl⟩)
    · exact Or.inr (Or.inl ⟨rfl, rfl⟩)

theorem mem_eraseRemove (v : List Str) (x y : Str) :
    y ∈ eraseRemove v x ↔ (y ∈ v ∧ y ≠ x) := by
  simp [eraseRemove]

theorem mutual_emptyStore : Mutual emptyStore.friendships := by
  intro a b
  simp [emptyStore, friendsOf, mapFind]

theorem addFriend_mutual (s : SocialNetwork) (friendUsername : Str)
    (h : Mutual s.friendships) : Mutual (addFriend s friendUsername).1.friendships := by
  unfold addFriend
  split
  · exact h
  · split
    · exact h
    · split
      · exact h
      · split
        · split
          · exact h
          · exact mutual_pushBoth _ _ _ h
        · exact mutual_pushBoth _ _ _ h

/-- Membership in the friend lists after a call of `removeFriend`. -/
theorem removeFriend_mem (s : SocialNetwork) (friendUsername k x : Str) :
    x ∈ friendsOf (removeFriend s friendUsername).1.friendships k ↔
      (x ∈ friendsOf s.friendships k ∧
        ((removeFriend s friendUsername).2 = Outcome.removedFriend →
          ¬ (k = s.loggedInUser ∧ x = friendUsername) ∧
          ¬ (k = friendUsername ∧ x = s.loggedInUser))) := by
  unfold removeFriend
  split
  · simp
  · split
    · simp
    · rename_i cur hcur
      split
      · simp
      · simp only
        split
        · rename_i tgt htgt
          simp only [friendsOf_mapSet, forall_true_left]
          rw [mapFind_mapSet] at htgt
          by_cases hfk : friendUsername = k
          · subst hfk
            simp only [if_true, mem_eraseRemove, true_and]
            by_cases hsf : s.loggedInUser = friendUsername
            · simp only [hsf, if_true] at htgt
              have htgt' : tgt = eraseRemove cur friendUsername := (Option.some.inj htgt).symm
              subst htgt'
              simp only [mem_eraseRemove, friendsOf, hsf.symm ▸ hcur, Option.getD_some]
              rw [hsf]
              simp only [true_and, and_self]
              tauto
            · simp only [hsf, if_false] at htgt
              have hfs : ¬ friendUsername = s.loggedInUser := fun h => hsf h.symm
              simp only [friendsOf, htgt, Option.getD_some, hfs, false_and, not_false_eq_true,
                true_and]
          · have hkf : ¬ k = friendUsername := fun h => hfk h.symm
            simp only [hfk, if_false, hkf, false_and, not_false_eq_true, and_true]
            by_cases hsk : s.loggedInUser = k
            · subst hsk
              simp only [if_true, mem_eraseRemove, friendsOf, hcur, Option.getD_some, true_and]
            · have hks : ¬ k = s.loggedInUser := fun h => hsk h.symm
              simp only [hsk, if_false, hks, false_and, not_false_eq_true, and_true]
        · rename_i htgt
          simp only [friendsOf_mapSet, forall_true_left]
          rw [mapFind_mapSet] at htgt
          by_cases hsf : s.loggedInUser = friendUsername
          · simp [hsf] at htgt
          · simp only [hsf, if_false] at htgt
            by_cases hsk : s.loggedInUser = k
            · subst hsk
              have hfs : ¬ friendUsername = s.loggedInUser := fun h => hsf h.symm
              simp only [if_true, mem_eraseRemove, friendsOf, hcur, Option.getD_some, true_and,
                hsf, false_and, not_false_eq_true, and_true]
            · have hks : ¬ k = s.loggedInUser := fun h => hsk h.symm
              simp only [hsk, if_false, hks, false_and, not_false_eq_true, true_and]
              by_cases hkf : k = friendUsername
              · subst hkf
                simp [friendsOf, htgt]
              · simp [hkf]

theorem removeFriend_mutual (s : SocialNetwork) (friendUsername : Str)
    (h : Mutual s.friendships) : Mutual (removeFriend s friendUsername).1.friendships := by
  intro a b
  rw [removeFriend_mem, removeFriend_mem, h a b]
  constructor
  · rintro ⟨h1, h2⟩
    exact ⟨h1, fun hr => ⟨fun hc => (h2 hr).2 ⟨hc.2, hc.1⟩, fun hc => (h2 hr).1 ⟨hc.2, hc.1⟩⟩⟩
  · rintro ⟨h1, h2⟩
    exact ⟨h1, fun hr => ⟨fun hc => (h2 hr).2 ⟨hc.2, hc.1⟩, fun hc => (h2 hr).1 ⟨hc.2, hc.1⟩⟩⟩

theorem registerUser_friendships (s : SocialNetwork) (username password bio : Str) :
    (registerUser s username password bio).1.friendships = s.friendships := by
  unfold registerUser
  split <;> rfl

theorem loginUser_friendships (s : SocialNetwork) (username password : Str) :
    (loginUser s username password).1.friendships = s.friendships := by
  unfold loginUser
  split
  · split <;> rfl
  · rfl

theorem postMessage_friendships (s : SocialNetwork) (content now : Str) :
    (postMessage s content now).1.friendships = s.friendships := by
  unfold postMessage
  split
  · rfl
  · split <;> rfl

theorem step_mutual (s : SocialNetwork) (op : Op) (h : Mutual s.friendships) :
    Mutual (step s op).friendships := by
  cases op with
  | register username password bio =>
    simp only [step, registerUser_friendships]; exact h
  | login username password =>
    simp only [step, loginUser_friendships]; exact h
  | logout => exact h
  | addFriend friendUsername => exact addFriend_mutual s friendUsername h
  | removeFriend friendUsername => exact removeFriend_mutual s friendUsername h
  | post content now =>
    simp only [step, postMessage_friendships]; exact h

theorem run_mutual (ops : List Op) (s : SocialNetwork) (h : Mutual s.friendships) :
    Mutual (run s ops).friendships := by
  induction ops generalizing s with
  | nil => exact h
  | cons op ops ih => exact ih (step s op) (step_mutual s op h)

theorem friendsStore_friendships :
    friendsStore.friendships =
      [("alice".toList, ["bob".toList]), ("bob".toList, ["alice".toList])] := by
  decide

theorem friendsStore_mutual : Mutual friendsStore.friendships := by
  intro a b
  rw [friendsStore_friendships]
  simp only [friendsOf, mapFind]
  by_cases ha1 : "alice".toList = a <;> by_cases ha2 : "bob".toList = a <;>
    by_cases hb1 : "alice".toList = b <;> by_cases hb2 : "bob".toList = b <;>
    subst_vars <;> simp_all <;> (intro h; subst h; simp_all)

/-! ## Registration -/

theorem findUser_eq_none (users : List User) (username : Str) :
    findUser users username = none ↔ ∀ u ∈ users, u.username ≠ username := by
  induction users with
  | nil => simp [findUser]
  | cons u rest ih =>
    simp only [findUser]
    by_cases h : u.username = username
    · simp [h]
    · simp [h, ih]

theorem registerUser_unique (s : SocialNetwork) (username password bio : Str)
    (h : UniqueUsernames s.users) :
    UniqueUsernames (registerUser s username password bio).1.users := by
  unfold registerUser
  split
  · exact h
  · rename_i hex
    have hnone : findUser s.users username = none := by
      simpa [userExists] using hex
    have hall := (findUser_eq_none _ _).mp hnone
    unfold UniqueUsernames at h ⊢
    simp only
    rw [List.pairwise_append]
    refine ⟨h, by simp, ?_⟩
    intro u hu v hv
    rw [List.mem_singleton] at hv
    subst hv
    exact hall u hu

theorem loginUser_users (s : SocialNetwork) (username password : Str) :
    (loginUser s username password).1.users = s.users := by
  unfold loginUser
  split
  · split <;> rfl
  · rfl

theorem addFriend_users (s : SocialNetwork) (friendUsername : Str) :
    (addFriend s friendUsername).1.users = s.users := by
  unfold addFriend
  repeat' split
  all_goals rfl

theorem removeFriend_users (s : SocialNetwork) (friendUsername : Str) :
    (removeFriend s friendUsername).1.users = s.users := by
  unfold removeFriend
  split
  · rfl
  · split
    · rfl
    · split
      · rfl
      · simp only
        split <;> rfl

theorem postMessage_users (s : SocialNetwork) (content now : Str) :
    (postMessage s content now).1.users = s.users := by
  unfold postMessage
  repeat' split
  all_goals rfl

theorem step_unique (s : SocialNetwork) (op : Op) (h : UniqueUsernames s.users) :
    UniqueUsernames (step s op).users := by
  cases op with
  | register username password bio => exact registerUser_unique s username password bio h
  | login username password => simp only [step, loginUser_users]; exact h
  | logout => exact h
  | addFriend friendUsername => simp only [step, addFriend_users]; exact h
  | removeFriend friendUsername => simp only [step, removeFriend_users]; exact h
  | post content now => simp only [step, postMessage_users]; exact h

theorem run_unique (ops : List Op) (s : SocialNetwork) (h : UniqueUsernames s.users) :
    UniqueUsernames (run s ops).users := by
  induction ops generalizing s with
  | nil => exact h
  | cons op ops ih => exact ih (step s op) (step_unique s op h)

/-- C4: after any sequence of calls applied to the empty store, registrations
that succeed or fail mixed with any other calls, no two users of the store
have the same username. -/
theorem usernames_unique (ops : List Op) :
    (run emptyStore ops).users.Pairwise (fun u v => u.username ≠ v.username) :=
  run_unique ops emptyStore (by simp [UniqueUsernames, emptyStore])

/-! ## Sanitizing -/

theorem sanitizeString_eq_map (str : Str) : sanitizeString str = str.map sanitizeChar := by
  simp only [sanitizeString, stdReplace, List.map_map]
  apply List.map_congr_left
  intro c _
  simp only [Function.comp, sanitizeChar]
  by_cases h1 : c = '|'
  · subst h1; decide
  · simp only [h1, if_false]

theorem sanitizeChar_ne_bar (c : Char) : sanitizeChar c ≠ '|' := by
  unfold sanitizeChar
  split
  · decide
  · split
    · decide
    · assumption

theorem sanitizeChar_ne_newline (c : Char) : sanitizeChar c ≠ '\n' := by
  unfold sanitizeChar
  split
  · decide
  · split
    · decide
    · assumption

theorem bar_not_mem_sanitizeString (str : Str) : '|' ∉ sanitizeString str := by
  rw [sanitizeString_eq_map]
  intro h
  obtain ⟨c, _, hc⟩ := List.mem_map.mp h
  exact sanitizeChar_ne_bar c hc

theorem newline_not_mem_sanitizeString (str : Str) : '\n' ∉ sanitizeString str := by
  rw [sanitizeString_eq_map]
  intro h
  obtain ⟨c, _, hc⟩ := List.mem_map.mp h
  exact sanitizeChar_ne_newline c hc

/-- C8: `sanitizeString s` is as long as `s`, holds neither `|` nor a newline,
and at every position holds `_` where `s` holds `|`, a space where `s` holds a
newline and the character of `s` otherwise. -/
theorem sanitizeString_spec (s : Str) :
    (sanitizeString s).length = s.length ∧
    '|' ∉ sanitizeString s ∧
    '\n' ∉ sanitizeString s ∧
    ∀ i : Nat, (sanitizeString s)[i]? =
      (s[i]?).map (fun c => if c = '|' then '_' else if c = '\n' then ' ' else c) := by
  refine ⟨?_, bar_not_mem_sanitizeString s, newline_not_mem_sanitizeString s, ?_⟩
  · rw [sanitizeString_eq_map, List.length_map]
  · intro i
    rw [sanitizeString_eq_map, List.getElem?_map]
    rfl

/-! ## Reading a file line by line -/

theorem extractUntil_append (delim : Char) (a rest : Str) (h : delim ∉ a) :
    extractUntil delim (a ++ delim :: rest) = (a, some rest) := by
  induction a with
  | nil => simp [extractUntil]
  | cons c cs ih =>
    have hc : ¬ c = delim := fun hc => h (by simp [hc])
    have hcs : delim ∉ cs := fun hm => h (List.mem_cons_of_mem _ hm)
    simp [extractUntil, hc, ih hcs]

theorem extractUntil_of_not_mem (delim : Char) (a : Str) (h : delim ∉ a) :
    extractUntil delim a = (a, none) := by
  induction a with
  | nil => simp [extractUntil]
  | cons c cs ih =>
    have hc : ¬ c = delim := fun hc => h (by simp [hc])
    have hcs : delim ∉ cs := fun hm => h (List.mem_cons_of_mem _ hm)
    simp [extractUntil, hc, ih hcs]

theorem foldl_append_eq (α : Type) (f : α → Str) (l : List α) (init : Str) :
    l.foldl (fun out x => out ++ f x) init = init ++ l.flatMap f := by
  induction l generalizing init with
  | nil => simp
  | cons x l ih => simp [ih, List.append_assoc]

theorem joinLines_eq (lines : List Str) :
    joinLines lines = lines.flatMap (fun line => line ++ ['\n']) := by
  unfold joinLines
  have h := foldl_append_eq Str (fun line => line ++ ['\n']) lines []
  simp only [List.nil_append] at h
  rw [← h]
  congr 1
  funext out line
  rw [List.append_assoc]

theorem joinLines_cons (line : Str) (lines : List Str) :
    joinLines (line :: lines) = line ++ '\n' :: joinLines lines := by
  simp [joinLines_eq]

theorem length_le_joinLines (lines : List Str) : lines.length ≤ (joinLines lines).length := by
  induction lines with
  | nil => simp
  | cons line lines ih =>
    rw [joinLines_cons]
    simp only [List.length_cons, List.length_append]
    omega

theorem getlineLoop_joinLines {σ : Type} (body : σ → Str → σ) (lines : List Str)
    (hl : ∀ l ∈ lines, '\n' ∉ l) :
    ∀ (fuel : Nat) (line0 : Str) (acc : σ), lines.length < fuel →
      getlineLoop body fuel (IStream.ofText (joinLines lines)) line0 acc = lines.foldl body acc := by
  induction lines with
  | nil =>
    intro fuel line0 acc hf
    cases fuel with
    | zero => omega
    | succ fuel => simp [getlineLoop, getline, IStream.ofText, joinLines, extractUntil]
  | cons line lines ih =>
    intro fuel line0 acc hf
    cases fuel with
    | zero => simp at hf
    | succ fuel =>
      have hline : '\n' ∉ line := hl line (by simp)
      have hrest : ∀ l ∈ lines, '\n' ∉ l := fun l hm => hl l (List.mem_cons_of_mem _ hm)
      have hg : getline (IStream.ofText (joinLines (line :: lines))) line0 '\n' =
          (IStream.ofText (joinLines lines), line) := by
        rw [joinLines_cons]
        simp [getline, IStream.ofText, extractUntil_append _ _ _ hline]
      rw [getlineLoop, hg]
      simp only [IStream.ofText, Bool.false_eq_true, if_false, List.foldl_cons]
      exact ih hrest fuel line (body acc line) (by simpa using hf)

theorem forEachLine_joinLines {σ : Type} (body : σ → Str → σ) (lines : List Str)
    (hl : ∀ l ∈ lines, '\n' ∉ l) (acc : σ) :
    forEachLine body (joinLines lines) acc = lines.foldl body acc := by
  unfold forEachLine
  exact getlineLoop_joinLines body lines hl _ _ _
    (Nat.lt_succ_of_le (length_le_joinLines lines))

theorem getlineLoop_invariant {σ : Type} (body : σ → Str → σ) (P : σ → Prop)
    (hbody : ∀ acc line, P acc → P (body acc line)) :
    ∀ (fuel : Nat) (file : IStream) (line0 : Str) (acc : σ), P acc →
      P (getlineLoop body fuel file line0 acc) := by
  intro fuel
  induction fuel with
  | zero => intro file line0 acc h; exact h
  | succ fuel ih =>
    intro file line0 acc h
    rw [getlineLoop]
    split
    · exact h
    · exact ih _ _ _ (hbody _ _ h)

/-! ## Loading friendships -/

theorem decodeFriendship_line (a b : Str) (ha : '|' ∉ a) (hb : '\n' ∉ b) :
    decodeFriendship (a ++ ['|'] ++ b) = (a, b) := by
  have h1 : getline (IStream.ofText (a ++ ['|'] ++ b)) [] '|' = (IStream.ofText b, a) := by
    simp [getline, IStream.ofText, extractUntil_append _ _ _ ha]
  have h2 : (getline (IStream.ofText b) [] '\n').2 = b := by
    simp [getline, IStream.ofText, extractUntil_of_not_mem _ _ hb]
  simp only [decodeFriendship, h1, h2]

theorem loadFriendshipLine_mutual (m : FriendMap) (line : Str) (h : Mutual m) :
    Mutual (loadFriendshipLine m line) :=
  mutual_pushBoth _ _ _ h

theorem loadFriendshipLine_mono (m : FriendMap) (line k x : Str) (h : x ∈ friendsOf m k) :
    x ∈ friendsOf (loadFriendshipLine m line) k := by
  unfold loadFriendshipLine
  rw [mem_friendsOf_pushBoth]
  exact Or.inl h

theorem foldl_loadFriendshipLine_mono (lines : List Str) (m : FriendMap) (k x : Str)
    (h : x ∈ friendsOf m k) : x ∈ friendsOf (lines.foldl loadFriendshipLine m) k := by
  induction lines generalizing m with
  | nil => exact h
  | cons line lines ih => exact ih _ (loadFriendshipLine_mono m line k x h)

theorem foldl_loadFriendshipLine_mem (lines : List Str) (m : FriendMap) (line : Str)
    (h : line ∈ lines) :
    (decodeFriendship line).2 ∈
        friendsOf (lines.foldl loadFriendshipLine m) (decodeFriendship line).1 ∧
      (decodeFriendship line).1 ∈
        friendsOf (lines.foldl loadFriendshipLine m) (decodeFriendship line).2 := by
  induction lines generalizing m with
  | nil => simp at h
  | cons l lines ih =>
    rcases List.mem_cons.mp h with rfl | h
    · simp only [List.foldl_cons]
      constructor
      · apply foldl_loadFriendshipLine_mono
        unfold loadFriendshipLine
        rw [mem_friendsOf_pushBoth]
        exact Or.inr (Or.inl ⟨rfl, rfl⟩)
      · apply foldl_loadFriendshipLine_mono
        unfold loadFriendshipLine
        rw [mem_friendsOf_pushBoth]
        exact Or.inr (Or.inr ⟨rfl, rfl⟩)
    · exact ih _ h

theorem loadFriendships_mutual (text : Str) (m : FriendMap) (h : Mutual m) :
    Mutual (loadFriendships text m) :=
  getlineLoop_invariant loadFriendshipLine Mutual
    (fun acc line hacc => loadFriendshipLine_mutual acc line hacc) _ _ _ _ h

theorem loadData_mutual (files : Files) (s : SocialNetwork) (h : Mutual s.friendships) :
    Mutual (loadData files s).friendships := by
  unfold loadData
  cases files.friendships with
  | none => exact h
  | some text => exact loadFriendships_mutual text _ h

/-- C3: mutuality of the friendship map is kept by every call of `addFriend`
and of `removeFriend`, whatever the call reports, and so holds in every store
reached from the empty store by any sequence of calls, also when the store was
first filled from data files. -/
theorem mutuality_invariant :
    (∀ (s : SocialNetwork) (friendUsername : Str), Mutual s.friendships →
      Mutual (addFriend s friendUsername).1.friendships) ∧
    (∀ (s : SocialNetwork) (friendUsername : Str), Mutual s.friendships →
      Mutual (removeFriend s friendUsername).1.friendships) ∧
    (∀ ops : List Op, Mutual (run emptyStore ops).friendships) ∧
    (∀ (files : Files) (ops : List Op),
      Mutual (run (SocialNetwork.construct files) ops).friendships) :=
  ⟨addFriend_mutual, removeFriend_mutual, fun ops => run_mutual ops _ mutual_emptyStore,
   fun files ops => run_mutual ops _ (loadData_mutual files emptyStore mutual_emptyStore)⟩

/-- Witness of C3: alice, friends with bob only, adds carol and removes bob. -/
theorem mutuality_invariant_witness :
    Mutual friendsStore.friendships ∧
    (addFriend friendsStore "carol".toList).2 = Outcome.nowFriends ∧
    Mutual (addFriend friendsStore "carol".toList).1.friendships ∧
    (removeFriend friendsStore "bob".toList).2 = Outcome.removedFriend ∧
    Mutual (removeFriend friendsStore "bob".toList).1.friendships :=
  ⟨friendsStore_mutual, by decide,
   mutuality_invariant.1 friendsStore "carol".toList friendsStore_mutual, by decide,
   mutuality_invariant.2.1 friendsStore "bob".toList friendsStore_mutual⟩

/-- C10: the friendship map that `loadData` builds in an empty store is
mutual for every content of the friendship file; every line of the file makes
its second field a friend of its first field and the first a friend of the
second; and the fields of a line `a|b` are `a` and `b` (`a` the text before the
delimiter), so that line makes `b` a friend of `a` and `a` a friend of `b`. -/
theorem load_restores_symmetry :
    (∀ files : Files, Mutual (loadData files emptyStore).friendships) ∧
    (∀ (files : Files) (lines : List Str) (line : Str),
      files.friendships = some (joinLines lines) →
      (∀ l ∈ lines, '\n' ∉ l) → line ∈ lines →
        (decodeFriendship line).2 ∈
          friendsOf (loadData files emptyStore).friendships (decodeFriendship line).1 ∧
        (decodeFriendship line).1 ∈
          friendsOf (loadData files emptyStore).friendships (decodeFriendship line).2) ∧
    (∀ (files : Files) (lines : List Str) (a b : Str),
      files.friendships = some (joinLines lines) →
      (∀ l ∈ lines, '\n' ∉ l) → '|' ∉ a → a ++ ['|'] ++ b ∈ lines →
        b ∈ friendsOf (loadData files emptyStore).friendships a ∧
        a ∈ friendsOf (loadData files emptyStore).friendships b) := by
  refine ⟨?_, ?_, ?_⟩
  · intro files
    unfold loadData
    cases files.friendships with
    | none => exact mutual_emptyStore
    | some text => exact loadFriendships_mutual text _ mutual_emptyStore
  · intro files lines line hf hl hmem
    have hfold := foldl_loadFriendshipLine_mem lines emptyStore.friendships _ hmem
    unfold loadData
    simp only [hf, loadFriendships, forEachLine_joinLines loadFriendshipLine lines hl]
    exact hfold
  · intro files lines a b hf hl ha hmem
    have hb : '\n' ∉ b := fun hb => hl _ hmem (by simp [hb])
    have hdec := decodeFriendship_line a b ha hb
    have hfold := foldl_loadFriendshipLine_mem lines emptyStore.friendships _ hmem
    rw [hdec] at hfold
    unfold loadData
    simp only [hf, loadFriendships, forEachLine_joinLines loadFriendshipLine lines hl]
    exact hfold

/-- Witness of C10 on a file of the two lines `alice|bob` and `bob|carol`. -/
theorem load_restores_symmetry_witness :
    sampleFiles.friendships = some (joinLines sampleFriendshipLines) ∧
    (∀ l ∈ sampleFriendshipLines, '\n' ∉ l) ∧ '|' ∉ "alice".toList ∧
    "alice".toList ++ ['|'] ++ "bob".toList ∈ sampleFriendshipLines ∧
    "bob|carol".toList ∈ sampleFriendshipLines ∧
    ((decodeFriendship "bob|carol".toList).2 ∈
        friendsOf (loadData sampleFiles emptyStore).friendships
          (decodeFriendship "bob|carol".toList).1 ∧
      (decodeFriendship "bob|carol".toList).1 ∈
        friendsOf (loadData sampleFiles emptyStore).friendships
          (decodeFriendship "bob|carol".toList).2) ∧
    "bob".toList ∈ friendsOf (loadData sampleFiles emptyStore).friendships "alice".toList ∧
    "alice".toList ∈ friendsOf (loadData sampleFiles emptyStore).friendships "bob".toList :=
  ⟨rfl, by decide, by decide, by decide, by decide,
   load_restores_symmetry.2.1 sampleFiles sampleFriendshipLines "bob|carol".toList rfl
     (by decide) (by decide),
   load_restores_symmetry.2.2 sampleFiles sampleFriendshipLines "alice".toList "bob".toList rfl
     (by decide) (by decide) (by decide)⟩

/-! ## Names that hold the delimiter -/

/-- C7, at a store reached by one registration: the user `a|b` is saved as the
line `a|b|pw|hi`, which holds three delimiters, and a post of that user as a
line that holds four. -/
theorem saved_lines_of_bar_name :
    (run emptyStore barNameOps).users =
      [User.mk "a|b".toList "pw".toList "hi".toList] ∧
    (saveData (run emptyStore barNameOps)).users = some "a|b|pw|hi\n".toList ∧
    (encodeUser (User.mk "a|b".toList "pw".toList "hi".toList)).count '|' = 3 ∧
    (run emptyStore barNamePostOps).posts =
      [Post.mk "post_1".toList "a|b".toList "hello".toList "2024-05-01 10:00:00".toList] ∧
    (saveData (run emptyStore barNamePostOps)).posts =
      some "post_1|a|b|2024-05-01 10:00:00|hello\n".toList ∧
    (encodePost (Post.mk "post_1".toList "a|b".toList "hello".toList
      "2024-05-01 10:00:00".toList)).count '|' = 4 := by
  decide

/-- C5, at a store reached by one registration: the user `a|b` with password
`pw` and bio `hi` is saved and loaded back as the user `a` with password `b`
and bio `pw|hi`; the posts of `a|b` come back with author `a`. -/
theorem roundtrip_of_bar_name :
    (run emptyStore barNameOps).users =
      [User.mk "a|b".toList "pw".toList "hi".toList] ∧
    (loadData (saveData (run emptyStore barNameOps)) emptyStore).users =
      [User.mk "a".toList "b".toList "pw|hi".toList] ∧
    (run emptyStore barNamePostOps).posts =
      [Post.mk "post_1".toList "a|b".toList "hello".toList "2024-05-01 10:00:00".toList] ∧
    (loadData (saveData (run emptyStore barNamePostOps)) emptyStore).posts =
      [Post.mk "post_1".toList "a".toList "2024-05-01 10:00:00|hello".toList "b".toList] := by
  decide

theorem barFriend_friendships :
    (run emptyStore barFriendOps).friendships =
      [("a|b".toList, ["c".toList]), ("c".toList, ["a|b".toList])] := by
  decide

/-- C6, at a store reached by two registrations and one `addFriend`: the map
is mutual, without self-loop and without duplicate, `c` has the friend `a|b`,
the friendship file is the line `a|b|c`, and after loading it `c` has no
friend while `a` and `b|c` are friends. -/
theorem friendship_roundtrip_of_bar_name :
    Mutual (run emptyStore barFriendOps).friendships ∧
    NoSelfLoops (run emptyStore barFriendOps).friendships ∧
    NoDuplicateFriends (run emptyStore barFriendOps).friendships ∧
    friendsOf (run emptyStore barFriendOps).friendships "c".toList = ["a|b".toList] ∧
    (saveData (run emptyStore barFriendOps)).friendships = some "a|b|c\n".toList ∧
    (loadData (saveData (run emptyStore barFriendOps)) emptyStore).friendships =
      [("a".toList, ["b|c".toList]), ("b|c".toList, ["a".toList])] ∧
    friendsOf (loadData (saveData (run emptyStore barFriendOps)) emptyStore).friendships
      "c".toList = [] := by
  refine ⟨run_mutual _ _ mutual_emptyStore, ?_, ?_, ?_, ?_, ?_, ?_⟩
  · rw [barFriend_friendships]; unfold NoSelfLoops; decide
  · rw [barFriend_friendships]; unfold NoDuplicateFriends; decide
  · decide
  · decide
  · decide
  · decide

theorem barPairs_friendships :
    (run emptyStore barPairsOps).friendships =
      [("x".toList, ["y|z".toList]), ("x|y".toList, ["z".toList]),
       ("y|z".toList, ["x".toList]), ("z".toList, ["x|y".toList])] := by
  decide

/-- C9, at a store reached by four registrations and two `addFriend` calls:
the map is mutual, without self-loop and without duplicate, `x|y` and `z` are
friends, and the friendship file holds the line `x|y|z` twice. -/
theorem friendship_lines_of_bar_names :
    Mutual (run emptyStore barPairsOps).friendships ∧
    NoSelfLoops (run emptyStore barPairsOps).friendships ∧
    NoDuplicateFriends (run emptyStore barPairsOps).friendships ∧
    "z".toList ∈ friendsOf (run emptyStore barPairsOps).friendships "x|y".toList ∧
    (saveData (run emptyStore barPairsOps)).friendships = some "x|y|z\nx|y|z\n".toList ∧
    friendshipLines (run emptyStore barPairsOps).friendships =
      ["x|y|z".toList, "x|y|z".toList] ∧
    (friendshipLines (run emptyStore barPairsOps).friendships).count
      ("x|y".toList ++ ['|'] ++ "z".toList) = 2 := by
  refine ⟨run_mutual _ _ mutual_emptyStore, ?_, ?_, ?_, ?_, ?_, ?_⟩
  · rw [barPairs_friendships]; unfold NoSelfLoops; decide
  · rw [barPairs_friendships]; unfold NoDuplicateFriends; decide
  · decide
  · decide
  · decide
  · decide

/-! ## Records whose key fields hold no delimiter -/

theorem getline_field (a rest : Str) (delim : Char) (line0 : Str) (h : delim ∉ a) :
    getline (IStream.ofText (a ++ delim :: rest)) line0 delim = (IStream.ofText rest, a) := by
  simp [getline, IStream.ofText, extractUntil_append _ _ _ h]

theorem getline_last (a : Str) (delim : Char) (h : delim ∉ a) :
    (getline (IStream.ofText a) [] delim).2 = a := by
  simp [getline, IStream.ofText, extractUntil_of_not_mem _ _ h]

theorem decodeUser_userLine (u : User) (hn : '|' ∉ u.username) (hp : '|' ∉ u.password) :
    decodeUser (userLine u) = { u with bio := sanitizeString u.bio } := by
  have e : userLine u = u.username ++ '|' :: (u.password ++ '|' :: sanitizeString u.bio) := by
    simp [userLine]
  simp only [decodeUser, e, getline_field _ _ _ _ hn, getline_field _ _ _ _ hp,
    getline_last _ _ (newline_not_mem_sanitizeString u.bio)]

theorem decodePost_postLine (p : Post) (hi : '|' ∉ p.postId) (hn : '|' ∉ p.username)
    (ht : '|' ∉ p.timestamp) :
    decodePost (postLine p) = { p with content := sanitizeString p.content } := by
  have e : postLine p = p.postId ++ '|' :: (p.username ++ '|' ::
      (p.timestamp ++ '|' :: sanitizeString p.content)) := by
    simp [postLine]
  simp only [decodePost, e, getline_field _ _ _ _ hi, getline_field _ _ _ _ hn,
    getline_field _ _ _ _ ht, getline_last _ _ (newline_not_mem_sanitizeString p.content)]

theorem saveUsers_eq (users : List User) : saveUsers users = joinLines (users.map userLine) := by
  unfold saveUsers
  rw [foldl_append_eq, joinLines_eq, List.nil_append, List.flatMap_map]
  rfl

theorem savePosts_eq (posts : List Post) : savePosts posts = joinLines (posts.map postLine) := by
  unfold savePosts
  rw [foldl_append_eq, joinLines_eq, List.nil_append, List.flatMap_map]
  rfl

theorem foldl_push_eq {α β : Type} (f : α → β) (l : List α) (init : List β) :
    l.foldl (fun acc x => acc ++ [f x]) init = init ++ l.map f := by
  induction l generalizing init with
  | nil => simp
  | cons x l ih => simp [ih]

theorem newline_not_mem_userLine (u : User) (hn : '\n' ∉ u.username) (hp : '\n' ∉ u.password) :
    '\n' ∉ userLine u := by
  have hb := newline_not_mem_sanitizeString u.bio
  simp only [userLine, List.mem_append, List.mem_singleton, not_or]
  exact ⟨⟨⟨⟨hn, by decide⟩, hp⟩, by decide⟩, hb⟩

theorem newline_not_mem_postLine (p : Post) (hi : '\n' ∉ p.postId) (hn : '\n' ∉ p.username)
    (ht : '\n' ∉ p.timestamp) : '\n' ∉ postLine p := by
  have hb := newline_not_mem_sanitizeString p.content
  simp only [postLine, List.mem_append, List.mem_singleton, not_or]
  exact ⟨⟨⟨⟨⟨⟨hi, by decide⟩, hn⟩, by decide⟩, ht⟩, by decide⟩, hb⟩

/-- Users whose name and password hold neither `|` nor a newline are saved
and loaded back in order, each field equal and the bio sanitized. -/
theorem loadUsers_saveUsers (users : List User)
    (h : ∀ u ∈ users, DelimiterFree u.username ∧ DelimiterFree u.password) :
    loadUsers (saveUsers users) [] =
      users.map (fun u => { u with bio := sanitizeString u.bio }) := by
  have hl : ∀ l ∈ users.map userLine, '\n' ∉ l := by
    intro l hmem
    obtain ⟨u, hu, rfl⟩ := List.mem_map.mp hmem
    exact newline_not_mem_userLine u (h u hu).1.2 (h u hu).2.2
  unfold loadUsers
  rw [saveUsers_eq, forEachLine_joinLines _ _ hl, List.foldl_map]
  rw [foldl_push_eq (fun u => decodeUser (userLine u)) users [], List.nil_append]
  apply List.map_congr_left
  intro u hu
  exact decodeUser_userLine u (h u hu).1.1 (h u hu).2.1

/-- Posts whose id, author and timestamp hold neither `|` nor a newline are
saved and loaded back in order, each field equal and the content sanitized. -/
theorem loadPosts_savePosts (posts : List Post)
    (h : ∀ p ∈ posts, DelimiterFree p.postId ∧ DelimiterFree p.username ∧
      DelimiterFree p.timestamp) :
    loadPosts (savePosts posts) [] =
      posts.map (fun p => { p with content := sanitizeString p.content }) := by
  have hl : ∀ l ∈ posts.map postLine, '\n' ∉ l := by
    intro l hmem
    obtain ⟨p, hp, rfl⟩ := List.mem_map.mp hmem
    exact newline_not_mem_postLine p (h p hp).1.2 (h p hp).2.1.2 (h p hp).2.2.2
  unfold loadPosts
  rw [savePosts_eq, forEachLine_joinLines _ _ hl, List.foldl_map]
  rw [foldl_push_eq (fun p => decodePost (postLine p)) posts [], List.nil_append]
  apply List.map_congr_left
  intro p hp
  exact decodePost_postLine p (h p hp).1.1 (h p hp).2.1.1 (h p hp).2.2.1

/-- The line of a user whose name and password hold neither `|` nor a newline
is one line with exactly two delimiters. -/
theorem userLine_delimiters (u : User) (hn : DelimiterFree u.username)
    (hp : DelimiterFree u.password) :
    encodeUser u = userLine u ++ ['\n'] ∧ '\n' ∉ userLine u ∧ (userLine u).count '|' = 2 := by
  refine ⟨rfl, newline_not_mem_userLine u hn.2 hp.2, ?_⟩
  simp only [userLine, List.count_append, List.count_eq_zero.mpr hn.1,
    List.count_eq_zero.mpr hp.1, List.count_eq_zero.mpr (bar_not_mem_sanitizeString u.bio)]
  decide

/-- The line of a post whose id, author and timestamp hold neither `|` nor a
newline is one line with exactly three delimiters. -/
theorem postLine_delimiters (p : Post) (hi : DelimiterFree p.postId)
    (hn : DelimiterFree p.username) (ht : DelimiterFree p.timestamp) :
    encodePost p = postLine p ++ ['\n'] ∧ '\n' ∉ postLine p ∧ (postLine p).count '|' = 3 := by
  refine ⟨rfl, newline_not_mem_postLine p hi.2 hn.2 ht.2, ?_⟩
  simp only [postLine, List.count_append, List.count_eq_zero.mpr hi.1,
    List.count_eq_zero.mpr hn.1, List.count_eq_zero.mpr ht.1,
    List.count_eq_zero.mpr (bar_not_mem_sanitizeString p.content)]
  decide

/-! ## The saved friendship records -/

theorem mapFind_append (l1 l2 : FriendMap) (k : Str) :
    mapFind (l1 ++ l2) k = (mapFind l1 k).orElse (fun _ => mapFind l2 k) := by
  induction l1 with
  | nil => simp [mapFind]
  | cons e l1 ih =>
    obtain ⟨ke, ve⟩ := e
    simp only [List.cons_append, mapFind]
    split
    · simp
    · exact ih

theorem mapFind_eq_none (m : FriendMap) (k : Str) :
    mapFind m k = none ↔ ∀ e ∈ m, e.1 ≠ k := by
  induction m with
  | nil => simp [mapFind]
  | cons e m ih =>
    obtain ⟨ke, ve⟩ := e
    simp only [mapFind]
    by_cases h : ke = k
    · simp [h]
    · simp [h, ih]

theorem mapFind_mem (m : FriendMap) (k : Str) (v : List Str) (h : mapFind m k = some v) :
    (k, v) ∈ m := by
  induction m with
  | nil => simp [mapFind] at h
  | cons e m ih =>
    obtain ⟨ke, ve⟩ := e
    simp only [mapFind] at h
    by_cases hk : ke = k
    · simp only [hk, if_true, Option.some.injEq] at h
      simp [hk, h]
    · simp only [hk, if_false] at h
      exact List.mem_cons_of_mem _ (ih h)

theorem mapSet_of_keys_lt (pre : FriendMap) (k : Str) (v : List Str)
    (h : ∀ e ∈ pre, strLt e.1 k = true) : mapSet pre k v = pre ++ [(k, v)] := by
  induction pre with
  | nil => rfl
  | cons e pre ih =>
    obtain ⟨ke, ve⟩ := e
    have hlt : strLt ke k = true := h (ke, ve) (by simp)
    have hne : ¬ ke = k := by
      intro heq
      rw [heq, strLt_irrefl] at hlt
      exact absurd hlt (by simp)
    have hnlt : strLt k ke = false := strLt_asymm _ _ hlt
    simp only [mapSet, hne, hnlt, if_false, List.cons_append, Bool.false_eq_true]
    rw [ih (fun e he => h e (List.mem_cons_of_mem _ he))]

theorem count_map_inj {α β : Type} [BEq α] [LawfulBEq α] [BEq β] [LawfulBEq β] (f : α → β)
    (hf : Function.Injective f) (x : α) (l : List α) : (l.map f).count (f x) = l.count x := by
  induction l with
  | nil => simp
  | cons y l ih =>
    simp only [List.map_cons, List.count_cons, ih, beq_iff_eq]
    by_cases h : y = x
    · simp [h]
    · have : ¬ f y = f x := fun hh => h (hf hh)
      simp [h, this]

theorem count_savedPairsOfEntry (savedPairs : FriendMap) (user1 : Str) (friends : List Str)
    (a b : Str) :
    (savedPairsOfEntry savedPairs user1 friends).count (a, b) =
      if user1 = a ∧ notYetSaved savedPairs user1 b = true then friends.count b else 0 := by
  unfold savedPairsOfEntry
  by_cases h1 : user1 = a
  · subst h1
    have hinj : Function.Injective (fun user2 : Str => (user1, user2)) :=
      fun x y hxy => (Prod.mk.inj hxy).2
    rw [count_map_inj (fun user2 : Str => (user1, user2)) hinj b]
    by_cases hb : notYetSaved savedPairs user1 b = true
    · simp only [hb, and_self, if_true]
      exact List.count_filter hb
    · have hz : (friends.filter (fun user2 => notYetSaved savedPairs user1 user2)).count b = 0 := by
        rw [List.count_eq_zero]
        intro hm
        exact hb (List.mem_filter.mp hm).2
      rw [hz]
      simp [hb]
  · simp only [h1, false_and, if_false]
    rw [List.count_eq_zero]
    intro hm
    obtain ⟨x, _, hx⟩ := List.mem_map.mp hm
    exact h1 (Prod.mk.inj hx).1

theorem keysAscending_split (pre rest : FriendMap) (user1 : Str) (friends : List Str)
    (h : KeysAscending (pre ++ (user1, friends) :: rest)) :
    (∀ e ∈ pre, strLt e.1 user1 = true) ∧ (∀ e ∈ rest, strLt user1 e.1 = true) := by
  unfold KeysAscending at h
  rw [List.pairwise_append] at h
  obtain ⟨_, h2, h3⟩ := h
  rw [List.pairwise_cons] at h2
  exact ⟨fun e he => h3 e he (user1, friends) (by simp), h2.1⟩

theorem mapFind_none_of_lt (m : FriendMap) (k : Str) (h : ∀ e ∈ m, strLt e.1 k = true) :
    mapFind m k = none := by
  rw [mapFind_eq_none]
  intro e he heq
  have := h e he
  rw [heq, strLt_irrefl] at this
  exact absurd this (by simp)

theorem mapFind_none_of_gt (m : FriendMap) (k : Str) (h : ∀ e ∈ m, strLt k e.1 = true) :
    mapFind m k = none := by
  rw [mapFind_eq_none]
  intro e he heq
  have := h e he
  rw [heq, strLt_irrefl] at this
  exact absurd this (by simp)

/-- The test `notYetSaved` at the entry of `a`, in terms of the whole map. -/
theorem notYetSaved_iff (pre rest : FriendMap) (a b : Str) (friends : List Str)
    (h : KeysAscending (pre ++ (a, friends) :: rest)) :
    notYetSaved pre a b = true ↔
      ¬ (strLt b a = true ∧ a ∈ friendsOf (pre ++ (a, friends) :: rest) b) := by
  obtain ⟨hpre, hrest⟩ := keysAscending_split pre rest a friends h
  unfold notYetSaved friendsOf
  rw [mapFind_append]
  cases hfb : mapFind pre b with
  | none =>
    simp only [Option.orElse, true_iff, not_and]
    intro hlt hmem
    cases hrb : mapFind ((a, friends) :: rest) b with
    | none => rw [hrb] at hmem; simp at hmem
    | some v =>
      have hin := mapFind_mem _ _ _ hrb
      rcases List.mem_cons.mp hin with heq | hin
      · have hba : b = a := (Prod.mk.inj heq).1
        rw [hba, strLt_irrefl] at hlt
        exact absurd hlt (by simp)
      · have hab := hrest _ hin
        rw [strLt_asymm _ _ hab] at hlt
        exact absurd hlt (by simp)
  | some saved =>
    have hin := mapFind_mem _ _ _ hfb
    have hlt : strLt b a = true := hpre _ hin
    simp [Option.orElse, hlt]

theorem count_friendshipRecordsFrom (a b : Str) :
    ∀ (rest pre : FriendMap), KeysAscending (pre ++ rest) →
      (friendshipRecordsFrom rest pre).count (a, b) =
        if (mapFind rest a).isSome = true ∧
            ¬ (strLt b a = true ∧ a ∈ friendsOf (pre ++ rest) b)
        then (friendsOf (pre ++ rest) a).count b else 0 := by
  intro rest
  induction rest with
  | nil => intro pre _; simp [friendshipRecordsFrom, mapFind]
  | cons e rest ih =>
    obtain ⟨user1, friends⟩ := e
    intro pre h
    obtain ⟨hpre, hrest⟩ := keysAscending_split pre rest user1 friends h
    have happ : pre ++ (user1, friends) :: rest = (pre ++ [(user1, friends)]) ++ rest := by simp
    have h' : KeysAscending ((pre ++ [(user1, friends)]) ++ rest) := by rw [← happ]; exact h
    have hih := ih (pre ++ [(user1, friends)]) h'
    rw [← happ] at hih
    simp only [friendshipRecordsFrom]
    rw [mapSet_of_keys_lt pre user1 friends hpre, List.count_append, hih,
      count_savedPairsOfEntry]
    by_cases h1 : user1 = a
    · subst h1
      have hnone : mapFind rest user1 = none := mapFind_none_of_gt rest user1 hrest
      have hfa : friendsOf (pre ++ (user1, friends) :: rest) user1 = friends := by
        unfold friendsOf
        rw [mapFind_append, mapFind_none_of_lt pre user1 hpre]
        simp [Option.orElse, mapFind]
      have hiff := notYetSaved_iff pre rest user1 b friends h
      rw [hfa]
      simp only [hnone, Option.isSome_none, Bool.false_eq_true, false_and, if_false, add_zero,
        mapFind, if_true, Option.isSome_some, true_and]
      by_cases hc : strLt b user1 = true ∧ user1 ∈ friendsOf (pre ++ (user1, friends) :: rest) b
      · have : ¬ notYetSaved pre user1 b = true := fun hn => (hiff.mp hn) hc
        simp [this, hc]
      · have : notYetSaved pre user1 b = true := hiff.mpr hc
        simp [this, hc]
    · simp only [h1, false_and, if_false, zero_add, mapFind]

/-- How often `saveData` writes the pair `(a, b)`: as often as `b` is in the
list of `a`, unless the entry of `b` comes first and lists `a`. -/
theorem count_friendshipRecords (m : FriendMap) (h : KeysAscending m) (a b : Str) :
    (friendshipRecords m).count (a, b) =
      if strLt b a = true ∧ a ∈ friendsOf m b then 0 else (friendsOf m a).count b := by
  have hc := count_friendshipRecordsFrom a b m [] (by simpa using h)
  simp only [List.nil_append] at hc
  unfold friendshipRecords
  rw [hc]
  by_cases hcond : strLt b a = true ∧ a ∈ friendsOf m b
  · simp [hcond]
  · simp only [hcond, not_false_eq_true, and_true, if_false]
    cases hfa : mapFind m a with
    | none => simp [friendsOf, hfa]
    | some v => simp

theorem mem_friendshipRecords (m : FriendMap) (h : KeysAscending m) (a b : Str) :
    (a, b) ∈ friendshipRecords m ↔
      (b ∈ friendsOf m a ∧ ¬ (strLt b a = true ∧ a ∈ friendsOf m b)) := by
  rw [← List.count_pos_iff, count_friendshipRecords m h a b]
  by_cases hcond : strLt b a = true ∧ a ∈ friendsOf m b
  · simp [hcond]
  · simp only [hcond, if_false, not_false_eq_true, and_true]
    exact List.count_pos_iff

theorem not_mem_friendsOf_self (m : FriendMap) (h : NoSelfLoops m) (a : Str) :
    a ∉ friendsOf m a := by
  unfold friendsOf
  cases hfa : mapFind m a with
  | none => simp
  | some v => exact h (a, v) (mapFind_mem m a v hfa)

theorem nodup_friendsOf (m : FriendMap) (h : NoDuplicateFriends m) (a : Str) :
    (friendsOf m a).Nodup := by
  unfold friendsOf
  cases hfa : mapFind m a with
  | none => simp
  | some v => exact h (a, v) (mapFind_mem m a v hfa)

theorem key_of_mem_friendsOf (m : FriendMap) (a b : Str) (h : b ∈ friendsOf m a) :
    ∃ v, (a, v) ∈ m := by
  unfold friendsOf at h
  cases hfa : mapFind m a with
  | none => rw [hfa] at h; simp at h
  | some v => exact ⟨v, mapFind_mem m a v hfa⟩

theorem count_eq_one_of_nodup {α : Type} [BEq α] [LawfulBEq α] (l : List α) (x : α)
    (hd : l.Nodup) (hx : x ∈ l) : l.count x = 1 := by
  induction l with
  | nil => simp at hx
  | cons y l ih =>
    rw [List.nodup_cons] at hd
    rw [List.count_cons]
    by_cases hyx : y = x
    · subst hyx
      have : l.count y = 0 := List.count_eq_zero.mpr hd.1
      simp [this]
    · have hxl : x ∈ l := by
        rcases List.mem_cons.mp hx with h | h
        · exact absurd h.symm hyx
        · exact h
      simp [hyx, ih hd.2 hxl]

/-- Each pair of friends is written by `saveData` once, in one direction only. -/
theorem friendshipRecords_once (m : FriendMap) (hk : KeysAscending m) (hm : Mutual m)
    (hs : NoSelfLoops m) (hd : NoDuplicateFriends m) (a b : Str) (hab : b ∈ friendsOf m a) :
    (friendshipRecords m).count (a, b) + (friendshipRecords m).count (b, a) = 1 := by
  have hba : a ∈ friendsOf m b := (hm a b).mpr hab
  have hne : a ≠ b := fun heq => not_mem_friendsOf_self m hs a (by rw [heq] at hab ⊢; exact hab)
  have hca : (friendsOf m a).count b = 1 :=
    count_eq_one_of_nodup _ _ (nodup_friendsOf m hd a) hab
  have hcb : (friendsOf m b).count a = 1 :=
    count_eq_one_of_nodup _ _ (nodup_friendsOf m hd b) hba
  rw [count_friendshipRecords m hk a b, count_friendshipRecords m hk b a]
  cases hlt : strLt a b with
  | true =>
    have hgt : strLt b a = false := strLt_asymm _ _ hlt
    simp [hgt, hab, hca]
  | false =>
    cases hgt : strLt b a with
    | true => simp [hba, hcb]
    | false => exact absurd (strLt_total a b hlt hgt) hne

theorem count_map_of_inj_on {α β : Type} [BEq α] [LawfulBEq α] [BEq β] [LawfulBEq β]
    (f : α → β) (x : α) (l : List α) (h : ∀ y ∈ l, f y = f x → y = x) :
    (l.map f).count (f x) = l.count x := by
  induction l with
  | nil => simp
  | cons y l ih =>
    have ih' := ih (fun z hz => h z (List.mem_cons_of_mem _ hz))
    simp only [List.map_cons, List.count_cons, ih', beq_iff_eq]
    by_cases hyx : y = x
    · simp [hyx]
    · have : ¬ f y = f x := fun hh => hyx (h y (by simp) hh)
      simp [hyx, this]

theorem friendshipLine_inj (a b a' b' : Str) (ha : '|' ∉ a) (ha' : '|' ∉ a')
    (h : friendshipLine (a', b') = friendshipLine (a, b)) : (a', b') = (a, b) := by
  have e1 : friendshipLine (a', b') = a' ++ '|' :: b' := by simp [friendshipLine]
  have e2 : friendshipLine (a, b) = a ++ '|' :: b := by simp [friendshipLine]
  have h1 := extractUntil_append '|' a' b' ha'
  have h2 := extractUntil_append '|' a b ha
  rw [← e1, h, e2, h2] at h1
  have h3 := Prod.mk.inj h1
  rw [h3.1, Option.some.inj h3.2]

theorem friendshipLines_eq (m : FriendMap) :
    friendshipLines m = (friendshipRecords m).map friendshipLine := rfl

theorem count_friendshipLines (m : FriendMap) (hk : KeysAscending m)
    (hbar : ∀ e ∈ m, '|' ∉ e.1) (a b : Str) (ha : '|' ∉ a) :
    (friendshipLines m).count (a ++ ['|'] ++ b) = (friendshipRecords m).count (a, b) := by
  rw [friendshipLines_eq]
  apply count_map_of_inj_on friendshipLine (a, b)
  intro r hr heq
  obtain ⟨a', b'⟩ := r
  have hmem := ((mem_friendshipRecords m hk a' b').mp hr).1
  obtain ⟨v, hv⟩ := key_of_mem_friendsOf m a' b' hmem
  exact friendshipLine_inj a b a' b' ha (hbar _ hv) heq

/-- When no user name of the map holds `|`: for friends `a`, `b` the
friendship file holds exactly one of the lines `a|b`, `b|a`, once, and every
line of the file is `a|b` for some friends `a`, `b`. -/
theorem friendshipLines_once (m : FriendMap) (hk : KeysAscending m)
    (hbar : ∀ e ∈ m, '|' ∉ e.1) (hm : Mutual m) (hs : NoSelfLoops m)
    (hd : NoDuplicateFriends m) :
    (∀ a b : Str, b ∈ friendsOf m a →
      (friendshipLines m).count (a ++ ['|'] ++ b) +
        (friendshipLines m).count (b ++ ['|'] ++ a) = 1) ∧
    (∀ line ∈ friendshipLines m, ∃ a b : Str, line = a ++ ['|'] ++ b ∧ b ∈ friendsOf m a) := by
  constructor
  · intro a b hab
    have hba : a ∈ friendsOf m b := (hm a b).mpr hab
    obtain ⟨va, hva⟩ := key_of_mem_friendsOf m a b hab
    obtain ⟨vb, hvb⟩ := key_of_mem_friendsOf m b a hba
    rw [count_friendshipLines m hk hbar a b (hbar _ hva),
      count_friendshipLines m hk hbar b a (hbar _ hvb)]
    exact friendshipRecords_once m hk hm hs hd a b hab
  · intro line hline
    rw [friendshipLines_eq] at hline
    obtain ⟨r, hr, rfl⟩ := List.mem_map.mp hline
    obtain ⟨a, b⟩ := r
    exact ⟨a, b, rfl, ((mem_friendshipRecords m hk a b).mp hr).1⟩

/-! ## Saving and loading friendships -/

theorem saveFriendships_eq (m : FriendMap) :
    saveFriendships m = joinLines (friendshipLines m) := by
  unfold saveFriendships
  rw [foldl_append_eq, joinLines_eq, List.nil_append, friendshipLines_eq, List.flatMap_map]
  rfl

theorem mem_foldl_loadFriendshipLine (recs : List (Str × Str))
    (hdec : ∀ r ∈ recs, decodeFriendship (friendshipLine r) = r) (k x : Str) :
    ∀ m0 : FriendMap,
      x ∈ friendsOf ((recs.map friendshipLine).foldl loadFriendshipLine m0) k ↔
        (x ∈ friendsOf m0 k ∨ ∃ r ∈ recs, (k = r.1 ∧ x = r.2) ∨ (k = r.2 ∧ x = r.1)) := by
  induction recs with
  | nil => intro m0; simp
  | cons r recs ih =>
    intro m0
    have hr := hdec r (by simp)
    simp only [List.map_cons, List.foldl_cons]
    rw [ih (fun r' hr' => hdec r' (List.mem_cons_of_mem _ hr'))]
    unfold loadFriendshipLine
    rw [hr, mem_friendsOf_pushBoth]
    constructor
    · rintro ((h | h) | ⟨r', hr', h⟩)
      · exact Or.inl h
      · exact Or.inr ⟨r, by simp, h⟩
      · exact Or.inr ⟨r', List.mem_cons_of_mem _ hr', h⟩
    · rintro (h | ⟨r', hr', h⟩)
      · exact Or.inl (Or.inl h)
      · rcases List.mem_cons.mp hr' with heq | hmem
        · subst heq
          exact Or.inl (Or.inr h)
        · exact Or.inr ⟨r', hmem, h⟩

/-- When no user name of a mutual map holds `|` or a newline, saving the
friendships and loading them into an empty map gives every name the same set
of friends. -/
theorem loadFriendships_saveFriendships (m : FriendMap) (hk : KeysAscending m)
    (hfree : ∀ e ∈ m, DelimiterFree e.1) (hm : Mutual m) (k x : Str) :
    x ∈ friendsOf (loadFriendships (saveFriendships m) []) k ↔ x ∈ friendsOf m k := by
  have hkey : ∀ a b : Str, (a, b) ∈ friendshipRecords m → DelimiterFree a ∧ DelimiterFree b := by
    intro a b hr
    have hab := ((mem_friendshipRecords m hk a b).mp hr).1
    have hba : a ∈ friendsOf m b := (hm a b).mpr hab
    obtain ⟨va, hva⟩ := key_of_mem_friendsOf m a b hab
    obtain ⟨vb, hvb⟩ := key_of_mem_friendsOf m b a hba
    exact ⟨hfree _ hva, hfree _ hvb⟩
  have hl : ∀ l ∈ friendshipLines m, '\n' ∉ l := by
    intro l hmem
    rw [friendshipLines_eq] at hmem
    obtain ⟨r, hr, rfl⟩ := List.mem_map.mp hmem
    obtain ⟨a, b⟩ := r
    obtain ⟨ha, hb⟩ := hkey a b hr
    simp only [friendshipLine, List.mem_append, List.mem_singleton, not_or]
    exact ⟨⟨ha.2, by decide⟩, hb.2⟩
  have hdec : ∀ r ∈ friendshipRecords m, decodeFriendship (friendshipLine r) = r := by
    intro r hr
    obtain ⟨a, b⟩ := r
    obtain ⟨ha, hb⟩ := hkey a b hr
    exact decodeFriendship_line a b ha.1 hb.2
  unfold loadFriendships
  rw [saveFriendships_eq, forEachLine_joinLines _ _ hl, friendshipLines_eq,
    mem_foldl_loadFriendshipLine _ hdec k x []]
  constructor
  · rintro (h | ⟨r, hr, h | h⟩)
    · simp [friendsOf, mapFind] at h
    · obtain ⟨a, b⟩ := r
      obtain ⟨rfl, rfl⟩ := h
      exact ((mem_friendshipRecords m hk _ _).mp hr).1
    · obtain ⟨a, b⟩ := r
      obtain ⟨rfl, rfl⟩ := h
      exact (hm _ _).mpr ((mem_friendshipRecords m hk _ _).mp hr).1
  · intro hx
    have hkx : k ∈ friendsOf m x := (hm _ _).mpr hx
    right
    cases hlt : strLt x k with
    | false =>
      refine ⟨(k, x), (mem_friendshipRecords m hk k x).mpr ⟨hx, ?_⟩, Or.inl ⟨rfl, rfl⟩⟩
      simp [hlt]
    | true =>
      refine ⟨(x, k), (mem_friendshipRecords m hk x k).mpr ⟨hkx, ?_⟩, Or.inr ⟨rfl, rfl⟩⟩
      simp [strLt_asymm _ _ hlt]

/-! ## The keys of the map stay in ascending order -/

theorem mem_mapSet (m : FriendMap) (k : Str) (v : List Str) (e : Str × List Str)
    (h : e ∈ mapSet m k v) : e ∈ m ∨ e = (k, v) := by
  induction m with
  | nil => simpa [mapSet] using h
  | cons e' m ih =>
    obtain ⟨ke, ve⟩ := e'
    simp only [mapSet] at h
    split at h
    · rcases List.mem_cons.mp h with h | h
      · exact Or.inr h
      · exact Or.inl (List.mem_cons_of_mem _ h)
    · split at h
      · rcases List.mem_cons.mp h with h | h
        · exact Or.inr h
        · exact Or.inl h
      · rcases List.mem_cons.mp h with h | h
        · exact Or.inl (by simp [h])
        · rcases ih h with h | h
          · exact Or.inl (List.mem_cons_of_mem _ h)
          · exact Or.inr h

theorem mapSet_keysAscending (m : FriendMap) (k : Str) (v : List Str) (h : KeysAscending m) :
    KeysAscending (mapSet m k v) := by
  induction m with
  | nil => simp [mapSet, KeysAscending]
  | cons e m ih =>
    obtain ⟨ke, ve⟩ := e
    unfold KeysAscending at h ih ⊢
    rw [List.pairwise_cons] at h
    simp only [mapSet]
    by_cases h1 : ke = k
    · subst h1
      simp only [if_true]
      exact List.pairwise_cons.mpr ⟨h.1, h.2⟩
    · simp only [h1, if_false]
      by_cases h2 : strLt k ke = true
      · simp only [h2, if_true]
        refine List.pairwise_cons.mpr ⟨?_, List.pairwise_cons.mpr h⟩
        intro e he
        rcases List.mem_cons.mp he with rfl | he
        · exact h2
        · exact strLt_trans _ _ _ h2 (h.1 e he)
      · simp only [h2]
        refine List.pairwise_cons.mpr ⟨?_, ih h.2⟩
        intro e he
        rcases mem_mapSet m k v e he with he | rfl
        · exact h.1 e he
        · cases hlt : strLt ke k with
          | true => rfl
          | false =>
            have hkk : strLt k ke = false := by simpa using h2
            exact absurd (strLt_total ke k hlt hkk) h1

theorem mapPushBack_keysAscending (m : FriendMap) (k x : Str) (h : KeysAscending m) :
    KeysAscending (mapPushBack m k x) :=
  mapSet_keysAscending m k _ h

theorem addFriend_keysAscending (s : SocialNetwork) (friendUsername : Str)
    (h : KeysAscending s.friendships) :
    KeysAscending (addFriend s friendUsername).1.friendships := by
  have hp := mapPushBack_keysAscending _ friendUsername s.loggedInUser
    (mapPushBack_keysAscending s.friendships s.loggedInUser friendUsername h)
  unfold addFriend
  split
  · exact h
  · split
    · exact h
    · split
      · exact h
      · split
        · split
          · exact h
          · exact hp
        · exact hp

theorem removeFriend_keysAscending (s : SocialNetwork) (friendUsername : Str)
    (h : KeysAscending s.friendships) :
    KeysAscending (removeFriend s friendUsername).1.friendships := by
  unfold removeFriend
  split
  · exact h
  · split
    · exact h
    · split
      · exact h
      · simp only
        split
        · exact mapSet_keysAscending _ _ _ (mapSet_keysAscending _ _ _ h)
        · exact mapSet_keysAscending _ _ _ h

theorem step_keysAscending (s : SocialNetwork) (op : Op) (h : KeysAscending s.friendships) :
    KeysAscending (step s op).friendships := by
  cases op with
  | register username password bio =>
    simp only [step, registerUser_friendships]; exact h
  | login username password =>
    simp only [step, loginUser_friendships]; exact h
  | logout => exact h
  | addFriend friendUsername => exact addFriend_keysAscending s friendUsername h
  | removeFriend friendUsername => exact removeFriend_keysAscending s friendUsername h
  | post content now =>
    simp only [step, postMessage_friendships]; exact h

/-- Every store reached from the empty store has its map keys in ascending order. -/
theorem run_keysAscending (ops : List Op) :
    KeysAscending (run emptyStore ops).friendships := by
  have key : ∀ (ops : List Op) (s : SocialNetwork), KeysAscending s.friendships →
      KeysAscending (run s ops).friendships := by
    intro ops
    induction ops with
    | nil => intro s h; exact h
    | cons op ops ih => intro s h; exact ih (step s op) (step_keysAscending s op h)
  exact key ops emptyStore (by simp [KeysAscending, emptyStore])

/-- Every map loaded into the empty store has its keys in ascending order. -/
theorem loadFriendships_keysAscending (text : Str) :
    KeysAscending (loadFriendships text []) :=
  getlineLoop_invariant loadFriendshipLine KeysAscending
    (fun acc line hacc => mapPushBack_keysAscending _ _ _ (mapPushBack_keysAscending _ _ _ hacc))
    _ _ _ _ (by simp [KeysAscending])

/-- The store `friendsStore` meets every condition of `friendshipLines_once`
and of `loadFriendships_saveFriendships`; its friendship file is `alice|bob`. -/
theorem friendsStore_lines :
    KeysAscending friendsStore.friendships ∧
    (∀ e ∈ friendsStore.friendships, DelimiterFree e.1) ∧
    Mutual friendsStore.friendships ∧
    NoSelfLoops friendsStore.friendships ∧
    NoDuplicateFriends friendsStore.friendships ∧
    friendshipLines friendsStore.friendships = ["alice|bob".toList] ∧
    (friendshipLines friendsStore.friendships).count ("alice".toList ++ ['|'] ++ "bob".toList) +
      (friendshipLines friendsStore.friendships).count ("bob".toList ++ ['|'] ++ "alice".toList)
        = 1 ∧
    ("alice".toList ∈ friendsOf
        (loadFriendships (saveFriendships friendsStore.friendships) []) "bob".toList ↔
      "alice".toList ∈ friendsOf friendsStore.friendships "bob".toList) := by
  have hk : KeysAscending friendsStore.friendships := run_keysAscending _
  have hfree : ∀ e ∈ friendsStore.friendships, DelimiterFree e.1 := by
    rw [friendsStore_friendships]; unfold DelimiterFree; decide
  have hs : NoSelfLoops friendsStore.friendships := by
    rw [friendsStore_friendships]; unfold NoSelfLoops; decide
  have hd : NoDuplicateFriends friendsStore.friendships := by
    rw [friendsStore_friendships]; unfold NoDuplicateFriends; decide
  refine ⟨hk, hfree, friendsStore_mutual, hs, hd, by decide, ?_, ?_⟩
  · exact (friendshipLines_once _ hk (fun e he => (hfree e he).1) friendsStore_mutual hs hd).1
      "alice".toList "bob".toList (by decide)
  · exact loadFriendships_saveFriendships _ hk hfree friendsStore_mutual _ _

/-! ## Posting -/

/-- C11: the post stored for a logged-in user holds the first 255 characters
of the line typed: a longer line is cut to exactly its 255-character prefix, a
line of at most 255 characters is stored as it is. -/
theorem postMessage_truncates (s : SocialNetwork) (content now : Str)
    (h : isLoggedIn s = true) :
    ∃ p : Post, (postMessage s content now).1.posts = s.posts ++ [p] ∧
      p.content = content.take 255 ∧
      (255 < content.length → p.content.length = 255) ∧
      (content.length ≤ 255 → p.content = content) := by
  unfold postMessage
  simp only [h, Bool.not_true, Bool.false_eq_true, if_false]
  split
  · rename_i hlen
    refine ⟨_, rfl, rfl, ?_, ?_⟩
    · intro _
      simp only [List.length_take]
      omega
    · intro hle
      omega
  · rename_i hlen
    have hle : content.length ≤ 255 := by omega
    refine ⟨_, rfl, (List.take_of_length_le hle).symm, ?_, ?_⟩
    · intro hlt
      omega
    · intro _
      rfl

theorem longContent_length : longContent.length = 300 := by
  unfold longContent
  rw [List.length_replicate]

/-- Witness of C11: alice, logged in, posts a line of 300 characters. -/
theorem postMessage_truncates_witness :
    isLoggedIn friendsStore = true ∧ 255 < longContent.length ∧
    ∃ p : Post, (postMessage friendsStore longContent "2024-05-01 10:00:00".toList).1.posts =
        friendsStore.posts ++ [p] ∧
      p.content = longContent.take 255 ∧
      (255 < longContent.length → p.content.length = 255) ∧
      (longContent.length ≤ 255 → p.content = longContent) :=
  ⟨by decide, longContent_length ▸ (by omega),
   postMessage_truncates friendsStore longContent "2024-05-01 10:00:00".toList (by decide)⟩

/-! ## Adding a friend -/

/-- C12: for a logged-in user `A`, `addFriend` with the name `A` reports "You
cannot add yourself as a friend" and returns the store as it was: users,
friendships, posts and session. -/
theorem addFriend_self (s : SocialNetwork) (h : isLoggedIn s = true) :
    addFriend s s.loggedInUser = (s, Outcome.cannotAddYourself) := by
  unfold addFriend
  simp [h]

/-- Witness of C12: alice, logged in, adds alice. -/
theorem addFriend_self_witness :
    isLoggedIn friendsStore = true ∧
    addFriend friendsStore friendsStore.loggedInUser =
      (friendsStore, Outcome.cannotAddYourself) :=
  ⟨by decide, addFriend_self friendsStore (by decide)⟩

theorem userExists_eq_false (s : SocialNetwork) (username : Str) :
    userExists s username = false ↔ ∀ u ∈ s.users, u.username ≠ username := by
  unfold userExists
  rw [← findUser_eq_none]
  cases findUser s.users username <;> simp

theorem userExists_eq_true (s : SocialNetwork) (username : Str) :
    userExists s username = true ↔ ∃ u ∈ s.users, u.username = username := by
  have h := userExists_eq_false s username
  cases hex : userExists s username with
  | false =>
    rw [hex] at h
    have hall := h.mp rfl
    simp only [Bool.false_eq_true, false_iff, not_exists, not_and]
    exact hall
  | true =>
    rw [hex] at h
    simp only [true_iff]
    by_contra hne
    have : ∀ u ∈ s.users, u.username ≠ username := fun u hu heq => hne ⟨u, hu, heq⟩
    exact absurd (h.mpr this) (by simp)

theorem contains_eq_true (l : List Str) (x : Str) : l.contains x = true ↔ x ∈ l := by
  simp

/-- The test "already friends" of `addFriend` in terms of the friend list. -/
theorem addFriend_registered (s : SocialNetwork) (other : Str) (hlog : isLoggedIn s = true)
    (hne : other ≠ s.loggedInUser) (hex : userExists s other = true) :
    addFriend s other =
      if other ∈ friendsOf s.friendships s.loggedInUser then (s, Outcome.alreadyFriends)
      else ({ s with friendships := (mapPushBack
          (mapPushBack s.friendships s.loggedInUser other) other s.loggedInUser) },
        Outcome.nowFriends) := by
  unfold addFriend friendsOf
  simp only [hlog, Bool.not_true, Bool.false_eq_true, if_false, hne, hex]
  cases mapFind s.friendships s.loggedInUser with
  | none => simp
  | some friends =>
    simp only [Option.getD_some]
    by_cases hmem : other ∈ friends
    · simp [hmem]
    · simp [hmem]

/-- C13: for a logged-in user and another name, `addFriend` reports "does not
exist" when no registered user has that name and "already friends" when the
name is registered and in the user's friend list, returning the store as it was
in both cases; in every remaining case it reports success. -/
theorem addFriend_failure_cases (s : SocialNetwork) (other : Str)
    (hlog : isLoggedIn s = true) (hne : other ≠ s.loggedInUser) :
    ((∀ u ∈ s.users, u.username ≠ other) →
      addFriend s other = (s, Outcome.userDoesNotExist)) ∧
    ((∃ u ∈ s.users, u.username = other) →
      other ∈ friendsOf s.friendships s.loggedInUser →
      addFriend s other = (s, Outcome.alreadyFriends)) ∧
    ((∃ u ∈ s.users, u.username = other) →
      other ∉ friendsOf s.friendships s.loggedInUser →
      (addFriend s other).2 = Outcome.nowFriends) := by
  refine ⟨?_, ?_, ?_⟩
  · intro hall
    have hex := (userExists_eq_false s other).mpr hall
    unfold addFriend
    simp [hlog, hne, hex]
  · intro hsome hmem
    rw [addFriend_registered s other hlog hne ((userExists_eq_true s other).mpr hsome),
      if_pos hmem]
  · intro hsome hmem
    rw [addFriend_registered s other hlog hne ((userExists_eq_true s other).mpr hsome),
      if_neg hmem]

/-- Witness of C13: alice, friends with bob, adds the unknown dave, then bob,
then carol. -/
theorem addFriend_failure_cases_witness :
    isLoggedIn friendsStore = true ∧
    addFriend friendsStore "dave".toList = (friendsStore, Outcome.userDoesNotExist) ∧
    addFriend friendsStore "bob".toList = (friendsStore, Outcome.alreadyFriends) ∧
    (addFriend friendsStore "carol".toList).2 = Outcome.nowFriends :=
  ⟨by decide,
   (addFriend_failure_cases friendsStore "dave".toList (by decide) (by decide)).1 (by decide),
   (addFriend_failure_cases friendsStore "bob".toList (by decide) (by decide)).2.1
     (by decide) (by decide),
   (addFriend_failure_cases friendsStore "carol".toList (by decide) (by decide)).2.2
     (by decide) (by decide)⟩

theorem addFriend_success (s : SocialNetwork) (other : Str)
    (h : (addFriend s other).2 = Outcome.nowFriends) :
    isLoggedIn s = true ∧ other ≠ s.loggedInUser ∧ userExists s other = true ∧
    other ∉ friendsOf s.friendships s.loggedInUser ∧
    (addFriend s other).1 = { s with friendships := (mapPushBack
      (mapPushBack s.friendships s.loggedInUser other) other s.loggedInUser) } := by
  cases hlog : isLoggedIn s with
  | false => simp [addFriend, hlog] at h
  | true =>
    by_cases hne : other = s.loggedInUser
    · simp [addFriend, hlog, hne] at h
    · cases hex : userExists s other with
      | false => simp [addFriend, hlog, hne, hex] at h
      | true =>
        have hreg := addFriend_registered s other hlog hne hex
        by_cases hmem : other ∈ friendsOf s.friendships s.loggedInUser
        · rw [hreg, if_pos hmem] at h
          simp at h
        · rw [hreg, if_neg hmem]
          exact ⟨rfl, hne, rfl, hmem, rfl⟩

/-- C14: when `addFriend` reports success, the new friend list of the user is
the old one with the other name appended, the new list of the other name is its
old one with the user appended, every other list is as before, and users, posts
and session are as before. -/
theorem addFriend_success_effect (s : SocialNetwork) (other : Str)
    (h : (addFriend s other).2 = Outcome.nowFriends) :
    friendsOf (addFriend s other).1.friendships s.loggedInUser =
      friendsOf s.friendships s.loggedInUser ++ [other] ∧
    friendsOf (addFriend s other).1.friendships other =
      friendsOf s.friendships other ++ [s.loggedInUser] ∧
    (∀ k : Str, k ≠ s.loggedInUser → k ≠ other →
      friendsOf (addFriend s other).1.friendships k = friendsOf s.friendships k) ∧
    (addFriend s other).1.users = s.users ∧
    (addFriend s other).1.posts = s.posts ∧
    (addFriend s other).1.loggedInUser = s.loggedInUser := by
  obtain ⟨_, hne, _, _, heq⟩ := addFriend_success s other h
  have hne' : ¬ s.loggedInUser = other := fun e => hne e.symm
  rw [heq]
  refine ⟨?_, ?_, ?_, rfl, rfl, rfl⟩
  · simp only [friendsOf_mapPushBack, hne, if_false, if_true]
  · simp only [friendsOf_mapPushBack, hne', if_false, if_true]
  · intro k hk1 hk2
    have hk1' : ¬ s.loggedInUser = k := fun e => hk1 e.symm
    have hk2' : ¬ other = k := fun e => hk2 e.symm
    simp only [friendsOf_mapPushBack, hk1', hk2', if_false]

/-- Witness of C14: alice, friends with bob, adds carol. -/
theorem addFriend_success_effect_witness :
    (addFriend friendsStore "carol".toList).2 = Outcome.nowFriends ∧
    friendsOf (addFriend friendsStore "carol".toList).1.friendships "alice".toList =
      ["bob".toList, "carol".toList] ∧
    friendsOf (addFriend friendsStore "carol".toList).1.friendships "carol".toList =
      ["alice".toList] ∧
    friendsOf (addFriend friendsStore "carol".toList).1.friendships friendsStore.loggedInUser =
      friendsOf friendsStore.friendships friendsStore.loggedInUser ++ ["carol".toList] :=
  ⟨by decide, by decide, by decide,
   (addFriend_success_effect friendsStore "carol".toList (by decide)).1⟩

/-! ## Registering -/

/-- C16: `registerUser` reports "already taken" and returns the store as it was
when a user of that name exists; otherwise it appends the new user to the user
list and leaves friendships, posts and session as they were. -/
theorem registerUser_spec (s : SocialNetwork) (username password bio : Str) :
    ((∃ u ∈ s.users, u.username = username) →
      registerUser s username password bio = (s, Outcome.usernameTaken)) ∧
    ((∀ u ∈ s.users, u.username ≠ username) →
      registerUser s username password bio =
        ({ users := s.users ++ [User.mk username password bio]
           friendships := s.friendships
           posts := s.posts
           loggedInUser := s.loggedInUser }, Outcome.registered)) := by
  constructor
  · intro h
    have hex := (userExists_eq_true s username).mpr h
    simp [registerUser, hex]
  · intro h
    have hex := (userExists_eq_false s username).mpr h
    simp [registerUser, hex]

/-- Witness of C16: in a store with alice, bob and carol, alice registers again
and dave registers. -/
theorem registerUser_spec_witness :
    (∃ u ∈ friendsStore.users, u.username = "alice".toList) ∧
    registerUser friendsStore "alice".toList "x".toList "y".toList =
      (friendsStore, Outcome.usernameTaken) ∧
    (∀ u ∈ friendsStore.users, u.username ≠ "dave".toList) ∧
    registerUser friendsStore "dave".toList "pw4".toList "yo".toList =
      ({ users := friendsStore.users ++ [User.mk "dave".toList "pw4".toList "yo".toList]
         friendships := friendsStore.friendships
         posts := friendsStore.posts
         loggedInUser := friendsStore.loggedInUser }, Outcome.registered) :=
  ⟨by decide,
   (registerUser_spec friendsStore "alice".toList "x".toList "y".toList).1 (by decide),
   by decide,
   (registerUser_spec friendsStore "dave".toList "pw4".toList "yo".toList).2 (by decide)⟩

/-! ## The gate on the session -/

/-- C19: when nobody is logged in, `addFriend`, `removeFriend` and
`postMessage` report "please log in" for every input and return the store as it
was, and `viewFeed` shows no feed. -/
theorem not_logged_in_gate (s : SocialNetwork) (h : isLoggedIn s = false) :
    (∀ friendUsername : Str, addFriend s friendUsername = (s, Outcome.pleaseLogIn)) ∧
    (∀ friendUsername : Str, removeFriend s friendUsername = (s, Outcome.pleaseLogIn)) ∧
    (∀ content now : Str, postMessage s content now = (s, Outcome.pleaseLogIn)) ∧
    viewFeed s = none := by
  refine ⟨?_, ?_, ?_, ?_⟩
  · intro friendUsername
    simp [addFriend, h]
  · intro friendUsername
    simp [removeFriend, h]
  · intro content now
    simp [postMessage, h]
  · simp [viewFeed, h]

/-- Witness of C19 on the empty store. -/
theorem not_logged_in_gate_witness :
    isLoggedIn emptyStore = false ∧
    addFriend emptyStore "bob".toList = (emptyStore, Outcome.pleaseLogIn) ∧
    removeFriend emptyStore "bob".toList = (emptyStore, Outcome.pleaseLogIn) ∧
    postMessage emptyStore "hello".toList "2024-05-01 10:00:00".toList =
      (emptyStore, Outcome.pleaseLogIn) ∧
    viewFeed emptyStore = none :=
  ⟨by decide, (not_logged_in_gate emptyStore (by decide)).1 _,
   (not_logged_in_gate emptyStore (by decide)).2.1 _,
   (not_logged_in_gate emptyStore (by decide)).2.2.1 _ _,
   (not_logged_in_gate emptyStore (by decide)).2.2.2⟩

/-! ## Removing a friend -/

theorem eraseRemove_length_eq (v : List Str) (x : Str) :
    (eraseRemove v x).length = v.length ↔ x ∉ v := by
  unfold eraseRemove
  rw [List.filter_length_eq_length]
  constructor
  · intro h hx
    have := h x hx
    simp at this
  · intro h a ha
    have hne : a ≠ x := fun e => h (e ▸ ha)
    simpa using hne

theorem eraseRemove_idem (v : List Str) (x : Str) :
    eraseRemove (eraseRemove v x) x = eraseRemove v x := by
  unfold eraseRemove
  rw [List.filter_filter]
  simp

theorem removeFriend_not_friends (s : SocialNetwork) (other : Str)
    (hlog : isLoggedIn s = true) (h : other ∉ friendsOf s.friendships s.loggedInUser) :
    (removeFriend s other).1 = s ∧
    (mapFind s.friendships s.loggedInUser = none →
      (removeFriend s other).2 = Outcome.noFriendsToRemove) ∧
    (mapFind s.friendships s.loggedInUser ≠ none →
      (removeFriend s other).2 = Outcome.notFriendsWith) := by
  unfold removeFriend
  simp only [hlog, Bool.not_true, Bool.false_eq_true, if_false]
  unfold friendsOf at h
  cases hcur : mapFind s.friendships s.loggedInUser with
  | none => simp
  | some cur =>
    rw [hcur] at h
    have hlen := (eraseRemove_length_eq cur other).mpr (by simpa using h)
    simp [hlen]

theorem removeFriend_friends (s : SocialNetwork) (other : Str)
    (hlog : isLoggedIn s = true) (h : other ∈ friendsOf s.friendships s.loggedInUser) :
    (removeFriend s other).2 = Outcome.removedFriend ∧
    (removeFriend s other).1.users = s.users ∧
    (removeFriend s other).1.posts = s.posts ∧
    (removeFriend s other).1.loggedInUser = s.loggedInUser ∧
    ∀ k : Str, friendsOf (removeFriend s other).1.friendships k =
      if k = other then eraseRemove (friendsOf s.friendships other) s.loggedInUser
      else if k = s.loggedInUser then eraseRemove (friendsOf s.friendships s.loggedInUser) other
      else friendsOf s.friendships k := by
  unfold friendsOf at h
  cases hcur : mapFind s.friendships s.loggedInUser with
  | none => rw [hcur] at h; simp at h
  | some cur =>
    rw [hcur] at h
    have hmem : other ∈ cur := by simpa using h
    have hlen : ¬ (eraseRemove cur other).length = cur.length :=
      fun e => (eraseRemove_length_eq cur other).mp e hmem
    have hfs : friendsOf s.friendships s.loggedInUser = cur := by simp [friendsOf, hcur]
    unfold removeFriend
    simp only [hlog, Bool.not_true, Bool.false_eq_true, if_false, hcur, hlen]
    cases htgt : mapFind (mapSet s.friendships s.loggedInUser (eraseRemove cur other)) other with
    | none =>
      refine ⟨rfl, rfl, rfl, rfl, ?_⟩
      intro k
      simp only [friendsOf_mapSet, hfs]
      rw [mapFind_mapSet] at htgt
      by_cases hso : s.loggedInUser = other
      · simp [hso] at htgt
      · simp only [hso, if_false] at htgt
        have hfo : friendsOf s.friendships other = [] := by simp [friendsOf, htgt]
        by_cases hko : k = other
        · subst hko
          simp [hso, hfo, eraseRemove]
        · by_cases hks : k = s.loggedInUser
          · subst hks
            simp [hko]
          · have hsk : ¬ s.loggedInUser = k := fun e => hks e.symm
            simp [hko, hks, hsk]
    | some tgt =>
      refine ⟨rfl, rfl, rfl, rfl, ?_⟩
      intro k
      simp only [friendsOf_mapSet, hfs]
      rw [mapFind_mapSet] at htgt
      by_cases hso : s.loggedInUser = other
      · simp only [hso, if_true, Option.some.injEq] at htgt
        subst htgt
        have hfo : friendsOf s.friendships other = cur := by rw [← hso]; exact hfs
        by_cases hko : k = other
        · subst hko
          simp only [if_true, hfo]
          rw [hso, eraseRemove_idem]
        · have hok : ¬ other = k := fun e => hko e.symm
          have hks : ¬ k = s.loggedInUser := fun e => hko (e.trans hso)
          have hsk : ¬ s.loggedInUser = k := fun e => hks e.symm
          simp [hko, hok, hks, hsk]
      · simp only [hso, if_false] at htgt
        have hfo : friendsOf s.friendships other = tgt := by simp [friendsOf, htgt]
        by_cases hko : k = other
        · subst hko
          simp [hfo]
        · have hok : ¬ other = k := fun e => hko e.symm
          by_cases hks : k = s.loggedInUser
          · subst hks
            simp [hko, hok]
          · have hsk : ¬ s.loggedInUser = k := fun e => hks e.symm
            simp [hko, hok, hks, hsk]

/-- C15: for a logged-in user, `removeFriend` with a name that is not in the
user's friend list returns the store as it was and reports "no friends to
remove" (no entry) or "not friends with" (entry without the name); with a name
that is in the list it reports success, removes the name from the user's list
and the user from the list of that name, keeps the other entries of both lists
in order, and leaves every other list, users, posts and session as they were. -/
theorem removeFriend_spec (s : SocialNetwork) (other : Str) (hlog : isLoggedIn s = true) :
    (other ∉ friendsOf s.friendships s.loggedInUser →
      (removeFriend s other).1 = s ∧
      (mapFind s.friendships s.loggedInUser = none →
        (removeFriend s other).2 = Outcome.noFriendsToRemove) ∧
      (mapFind s.friendships s.loggedInUser ≠ none →
        (removeFriend s other).2 = Outcome.notFriendsWith)) ∧
    (other ∈ friendsOf s.friendships s.loggedInUser →
      (removeFriend s other).2 = Outcome.removedFriend ∧
      friendsOf (removeFriend s other).1.friendships s.loggedInUser =
        (friendsOf s.friendships s.loggedInUser).filter (fun y => y != other) ∧
      friendsOf (removeFriend s other).1.friendships other =
        (friendsOf s.friendships other).filter (fun y => y != s.loggedInUser) ∧
      other ∉ friendsOf (removeFriend s other).1.friendships s.loggedInUser ∧
      s.loggedInUser ∉ friendsOf (removeFriend s other).1.friendships other ∧
      (friendsOf (removeFriend s other).1.friendships s.loggedInUser).Sublist
        (friendsOf s.friendships s.loggedInUser) ∧
      (friendsOf (removeFriend s other).1.friendships other).Sublist
        (friendsOf s.friendships other) ∧
      (∀ k : Str, k ≠ s.loggedInUser → k ≠ other →
        friendsOf (removeFriend s other).1.friendships k = friendsOf s.friendships k) ∧
      (removeFriend s other).1.users = s.users ∧
      (removeFriend s other).1.posts = s.posts ∧
      (removeFriend s other).1.loggedInUser = s.loggedInUser) := by
  constructor
  · exact removeFriend_not_friends s other hlog
  · intro h
    obtain ⟨hout, husers, hposts, hsess, hk⟩ := removeFriend_friends s other hlog h
    have hself : friendsOf (removeFriend s other).1.friendships s.loggedInUser =
        eraseRemove (friendsOf s.friendships s.loggedInUser) other := by
      rw [hk]
      by_cases hso : s.loggedInUser = other
      · rw [if_pos hso, ← hso]
      · rw [if_neg hso, if_pos rfl]
    have hother : friendsOf (removeFriend s other).1.friendships other =
        eraseRemove (friendsOf s.friendships other) s.loggedInUser := by
      rw [hk, if_pos rfl]
    refine ⟨hout, hself, hother, ?_, ?_, ?_, ?_, ?_, husers, hposts, hsess⟩
    · rw [hself, mem_eraseRemove]
      exact fun hc => hc.2 rfl
    · rw [hother, mem_eraseRemove]
      exact fun hc => hc.2 rfl
    · rw [hself]
      exact List.filter_sublist _
    · rw [hother]
      exact List.filter_sublist _
    · intro k hk1 hk2
      rw [hk, if_neg hk2, if_neg hk1]

/-- Witness of C15: alice, friends with bob only, removes carol and then bob. -/
theorem removeFriend_spec_witness :
    isLoggedIn friendsStore = true ∧
    removeFriend friendsStore "carol".toList = (friendsStore, Outcome.notFriendsWith) ∧
    (removeFriend friendsStore "bob".toList).2 = Outcome.removedFriend ∧
    friendsOf (removeFriend friendsStore "bob".toList).1.friendships "alice".toList = [] ∧
    friendsOf (removeFriend friendsStore "bob".toList).1.friendships "bob".toList = [] ∧
    friendsOf (removeFriend friendsStore "bob".toList).1.friendships friendsStore.loggedInUser =
      (friendsOf friendsStore.friendships friendsStore.loggedInUser).filter
        (fun y => y != "bob".toList) :=
  ⟨by decide, by decide, by decide, by decide, by decide,
   ((removeFriend_spec friendsStore "bob".toList (by decide)).2 (by decide)).2.1⟩

/-! ## Logging in -/

theorem findUser_some (users : List User) (username : Str) (u : User)
    (h : findUser users username = some u) : u ∈ users ∧ u.username = username := by
  induction users with
  | nil => simp [findUser] at h
  | cons x rest ih =>
    simp only [findUser] at h
    by_cases hx : x.username = username
    · simp only [hx, if_true, Option.some.injEq] at h
      subst h
      exact ⟨by simp, hx⟩
    · simp only [hx, if_false] at h
      exact ⟨List.mem_cons_of_mem _ (ih h).1, (ih h).2⟩

theorem findUser_of_unique (users : List User) (u : User) (h : UniqueUsernames users)
    (hu : u ∈ users) : findUser users u.username = some u := by
  induction users with
  | nil => simp at hu
  | cons x rest ih =>
    unfold UniqueUsernames at h ih
    rw [List.pairwise_cons] at h
    simp only [findUser]
    rcases List.mem_cons.mp hu with rfl | hu
    · simp
    · have hne : ¬ x.username = u.username := h.1 u hu
      simp only [hne, if_false]
      exact ih h.2 hu

/-- C17: in a store whose usernames are pairwise distinct, `loginUser` returns
true exactly when some user has the given name and the given password; then the
logged-in user becomes that name and nothing else changes; when it returns
false the store is as it was. -/
theorem loginUser_spec (s : SocialNetwork) (username password : Str)
    (h : UniqueUsernames s.users) :
    ((loginUser s username password).2 = true ↔
      ∃ u ∈ s.users, u.username = username ∧ u.password = password) ∧
    ((loginUser s username password).2 = true →
      (loginUser s username password).1 =
        { users := s.users, friendships := s.friendships, posts := s.posts,
          loggedInUser := username }) ∧
    ((loginUser s username password).2 = false →
      (loginUser s username password).1 = s) := by
  unfold loginUser
  cases hf : findUser s.users username with
  | none =>
    have hall := (findUser_eq_none _ _).mp hf
    refine ⟨?_, ?_, ?_⟩
    · simp only [Bool.false_eq_true, false_iff, not_exists, not_and]
      intro u hu hname
      exact absurd hname (hall u hu)
    · intro hc
      simp at hc
    · intro _
      rfl
  | some user =>
    obtain ⟨hmem, hname⟩ := findUser_some _ _ _ hf
    dsimp only
    by_cases hp : user.password = password
    · rw [if_pos hp]
      refine ⟨⟨fun _ => ⟨user, hmem, hname, hp⟩, fun _ => rfl⟩, fun _ => rfl, ?_⟩
      intro hc
      simp at hc
    · rw [if_neg hp]
      refine ⟨⟨?_, ?_⟩, ?_, fun _ => rfl⟩
      · intro hc
        simp at hc
      · rintro ⟨u, hu, huname, hupw⟩
        have hfu := findUser_of_unique s.users u h hu
        rw [huname, hf] at hfu
        have : user = u := Option.some.inj hfu
        rw [this] at hp
        exact absurd hupw hp
      · intro hc
        simp at hc

theorem friendsStore_unique : UniqueUsernames friendsStore.users :=
  run_unique _ emptyStore (by simp [UniqueUsernames, emptyStore])

/-- Witness of C17: alice logs in with her password and with a wrong one. -/
theorem loginUser_spec_witness :
    UniqueUsernames friendsStore.users ∧
    (loginUser friendsStore "bob".toList "pw2".toList).2 = true ∧
    (∃ u ∈ friendsStore.users, u.username = "bob".toList ∧ u.password = "pw2".toList) ∧
    (loginUser friendsStore "bob".toList "pw2".toList).1 =
      { users := friendsStore.users, friendships := friendsStore.friendships,
        posts := friendsStore.posts, loggedInUser := "bob".toList } ∧
    (loginUser friendsStore "bob".toList "PW2".toList).2 = false ∧
    (loginUser friendsStore "bob".toList "PW2".toList).1 = friendsStore :=
  ⟨friendsStore_unique, by decide,
   (loginUser_spec friendsStore "bob".toList "pw2".toList friendsStore_unique).1.mp (by decide),
   (loginUser_spec friendsStore "bob".toList "pw2".toList friendsStore_unique).2.1 (by decide),
   by decide,
   (loginUser_spec friendsStore "bob".toList "PW2".toList friendsStore_unique).2.2 (by decide)⟩

/-! ## The session queries -/

/-- C18, at a user with the empty name: a registration at the end of the
console input stores a user with empty name and password, and the files
written load back to that user. A login with empty name and password then
finds the user, stores the name and returns true, yet `isLoggedIn` is false
right afterwards, `getLoggedInUser` is empty, and the methods that need a
session still answer "please log in": the empty name is also the value that
stands for "nobody is logged in". -/
theorem login_empty_name_not_logged_in :
    blankUserFiles.users = some "||\n".toList ∧
    blankUserStore.users = [User.mk [] [] []] ∧
    findUser blankUserStore.users [] = some (User.mk [] [] []) ∧
    (loginUser blankUserStore [] []).2 = true ∧
    isLoggedIn (loginUser blankUserStore [] []).1 = false ∧
    getLoggedInUser (loginUser blankUserStore [] []).1 = [] ∧
    (postMessage (loginUser blankUserStore [] []).1 "hello".toList
      "2024-05-01 10:00:00".toList).2 = Outcome.pleaseLogIn ∧
    viewFeed (loginUser blankUserStore [] []).1 = none := by
  decide

/-- When `loginUser` returns true, `getLoggedInUser` gives the name used, and
for a name that is not empty `isLoggedIn` is true; after `logoutUser`, from any
store, `isLoggedIn` is false. -/
theorem session_queries_spec :
    (∀ (s : SocialNetwork) (username password : Str),
      (loginUser s username password).2 = true →
        getLoggedInUser (loginUser s username password).1 = username ∧
        (username ≠ [] → isLoggedIn (loginUser s username password).1 = true)) ∧
    (∀ s : SocialNetwork, isLoggedIn (logoutUser s) = false) := by
  constructor
  · intro s username password h
    unfold loginUser at h ⊢
    cases hf : findUser s.users username with
    | none => rw [hf] at h; simp at h
    | some user =>
      rw [hf] at h
      dsimp only at h ⊢
      by_cases hp : user.password = password
      · rw [if_pos hp]
        refine ⟨rfl, ?_⟩
        intro hne
        cases username with
        | nil => exact absurd rfl hne
        | cons c cs => rfl
      · rw [if_neg hp] at h
        simp at h
  · intro s
    rfl

/-- The lemma `session_queries_spec` at bob, who logs in with his password. -/
theorem session_queries_spec_example :
    (loginUser friendsStore "bob".toList "pw2".toList).2 = true ∧
    "bob".toList ≠ [] ∧
    getLoggedInUser (loginUser friendsStore "bob".toList "pw2".toList).1 = "bob".toList ∧
    isLoggedIn (loginUser friendsStore "bob".toList "pw2".toList).1 = true ∧
    isLoggedIn (logoutUser friendsStore) = false :=
  ⟨by decide, by decide,
   (session_queries_spec.1 friendsStore "bob".toList "pw2".toList (by decide)).1,
   (session_queries_spec.1 friendsStore "bob".toList "pw2".toList (by decide)).2 (by decide),
   session_queries_spec.2 friendsStore⟩

/-! ## Listing friends -/

/-- C20, as stated, fails for a name that is not registered: `viewFriends`
reports "not found" and lists nothing, where the claim expects the (empty)
friend list. -/
theorem viewFriends_unregistered :
    viewFriends emptyStore "bob".toList = none ∧
    viewFriends friendsStore "dave".toList = none ∧
    ¬ (∀ (s : SocialNetwork) (username : Str),
        viewFriends s username = some (friendsOf s.friendships username)) := by
  refine ⟨by decide, by decide, ?_⟩
  intro hall
  exact absurd (hall emptyStore "bob".toList) (by decide)

/-- C20, amended: for a registered username `viewFriends` lists that name's
adjacency list, the empty list when the name has no entry; for a username that
is not registered it reports "not found" and lists nothing. -/
theorem viewFriends_spec (s : SocialNetwork) (username : Str) :
    ((∃ u ∈ s.users, u.username = username) →
      viewFriends s username = some (friendsOf s.friendships username) ∧
      (mapFind s.friendships username = none → viewFriends s username = some [])) ∧
    ((∀ u ∈ s.users, u.username ≠ username) → viewFriends s username = none) := by
  constructor
  · intro h
    have hex := (userExists_eq_true s username).mpr h
    unfold userExists at hex
    unfold viewFriends friendsOf
    cases hf : findUser s.users username with
    | none => rw [hf] at hex; simp at hex
    | some user =>
      cases hm : mapFind s.friendships username with
      | none => simp
      | some friends => simp
  · intro h
    have hf := (findUser_eq_none s.users username).mpr h
    unfold viewFriends
    rw [hf]

/-- Witness of C20, amended: the lists of alice and carol, and the unknown dave. -/
theorem viewFriends_spec_witness :
    (∃ u ∈ friendsStore.users, u.username = "alice".toList) ∧
    viewFriends friendsStore "alice".toList = some ["bob".toList] ∧
    viewFriends friendsStore "alice".toList =
      some (friendsOf friendsStore.friendships "alice".toList) ∧
    mapFind friendsStore.friendships "carol".toList = none ∧
    viewFriends friendsStore "carol".toList = some [] ∧
    (∀ u ∈ friendsStore.users, u.username ≠ "dave".toList) ∧
    viewFriends friendsStore "dave".toList = none :=
  ⟨by decide, by decide,
   ((viewFriends_spec friendsStore "alice".toList).1 (by decide)).1,
   by decide,
   ((viewFriends_spec friendsStore "carol".toList).1 (by decide)).2 (by decide),
   by decide,
   (viewFriends_spec friendsStore "dave".toList).2 (by decide)⟩

/-! ## Post ids -/

theorem digitValue_digitChar (k : Nat) (h : k < 10) : digitValue (Nat.digitChar k) = k := by
  interval_cases k <;> decide

theorem foldl_toDigitsCore (fuel : Nat) : ∀ (n : Nat) (ds : List Char), n < fuel →
    (Nat.toDigitsCore 10 fuel n ds).foldl (fun acc c => acc * 10 + digitValue c) 0 =
      ds.foldl (fun acc c => acc * 10 + digitValue c) n := by
  induction fuel with
  | zero => intro n ds h; omega
  | succ fuel ih =>
    intro n ds h
    simp only [Nat.toDigitsCore]
    by_cases h0 : n / 10 = 0
    · simp only [h0, if_true, List.foldl_cons, Nat.zero_mul, Nat.zero_add]
      rw [digitValue_digitChar _ (Nat.mod_lt _ (by decide))]
      have : n % 10 = n := by omega
      rw [this]
    · simp only [h0, if_false]
      rw [ih (n / 10) _ (by omega)]
      simp only [List.foldl_cons]
      rw [digitValue_digitChar _ (Nat.mod_lt _ (by decide))]
      have : n / 10 * 10 + n % 10 = n := by omega
      rw [this]

theorem decimalValue_toDigits (n : Nat) : decimalValue (Nat.toDigits 10 n) = n := by
  unfold decimalValue Nat.toDigits
  rw [foldl_toDigitsCore (n + 1) n [] (by omega)]
  rfl

theorem toDigits_injective (a b : Nat) (h : Nat.toDigits 10 a = Nat.toDigits 10 b) : a = b := by
  have ha := decimalValue_toDigits a
  rw [h, decimalValue_toDigits] at ha
  exact ha.symm

theorem postIdsUpTo_succ (n : Nat) :
    postIdsUpTo (n + 1) = postIdsUpTo n ++ ["post_".toList ++ Nat.toDigits 10 (n + 1)] := by
  simp [postIdsUpTo, List.range_succ]

theorem postIdsUpTo_nodup (n : Nat) : (postIdsUpTo n).Nodup := by
  unfold postIdsUpTo
  apply List.Nodup.map _ (List.nodup_range n)
  intro i j hij
  have h := toDigits_injective _ _ (List.append_cancel_left hij)
  omega

theorem registerUser_posts (s : SocialNetwork) (username password bio : Str) :
    (registerUser s username password bio).1.posts = s.posts := by
  unfold registerUser
  split <;> rfl

theorem loginUser_posts (s : SocialNetwork) (username password : Str) :
    (loginUser s username password).1.posts = s.posts := by
  unfold loginUser
  split
  · split <;> rfl
  · rfl

theorem addFriend_posts (s : SocialNetwork) (friendUsername : Str) :
    (addFriend s friendUsername).1.posts = s.posts := by
  unfold addFriend
  repeat' split
  all_goals rfl

theorem removeFriend_posts (s : SocialNetwork) (friendUsername : Str) :
    (removeFriend s friendUsername).1.posts = s.posts := by
  unfold removeFriend
  split
  · rfl
  · split
    · rfl
    · split
      · rfl
      · simp only
        split <;> rfl

theorem postMessage_posts (s : SocialNetwork) (content now : Str) :
    (postMessage s content now).1.posts = s.posts ∨
    ∃ p : Post, (postMessage s content now).1.posts = s.posts ++ [p] ∧
      isLoggedIn s = true ∧
      p.postId = "post_".toList ++ Nat.toDigits 10 (s.posts.length + 1) ∧
      p.username = s.loggedInUser := by
  unfold postMessage
  cases hlog : isLoggedIn s with
  | false => left; simp
  | true =>
    right
    simp only [Bool.not_true, Bool.false_eq_true, if_false]
    split
    · exact ⟨_, rfl, trivial, rfl, rfl⟩
    · exact ⟨_, rfl, trivial, rfl, rfl⟩

theorem step_posts (s : SocialNetwork) (op : Op) :
    (step s op).posts = s.posts ∨
    ∃ p : Post, (step s op).posts = s.posts ++ [p] ∧
      p.postId = "post_".toList ++ Nat.toDigits 10 (s.posts.length + 1) ∧
      p.username = s.loggedInUser := by
  cases op with
  | register username password bio => left; exact registerUser_posts s _ _ _
  | login username password => left; exact loginUser_posts s _ _
  | logout => left; rfl
  | addFriend friendUsername => left; exact addFriend_posts s _
  | removeFriend friendUsername => left; exact removeFriend_posts s _
  | post content now =>
    rcases postMessage_posts s content now with h | ⟨p, hp, _, hid, hu⟩
    · left; exact h
    · right; exact ⟨p, hp, hid, hu⟩

theorem step_postIds (s : SocialNetwork) (op : Op)
    (h : s.posts.map Post.postId = postIdsUpTo s.posts.length) :
    (step s op).posts.map Post.postId = postIdsUpTo (step s op).posts.length := by
  rcases step_posts s op with he | ⟨p, hp, hid, _⟩
  · rw [he]; exact h
  · rw [hp, List.map_append, List.length_append, h, List.length_singleton, postIdsUpTo_succ]
    simp [hid]

theorem run_postIds (ops : List Op) (s : SocialNetwork)
    (h : s.posts.map Post.postId = postIdsUpTo s.posts.length) :
    (run s ops).posts.map Post.postId = postIdsUpTo (run s ops).posts.length := by
  induction ops generalizing s with
  | nil => exact h
  | cons op ops ih => exact ih (step s op) (step_postIds s op h)

/-- C21: a new post gets the id `post_` followed by the decimal numeral of the
number of posts before the call plus one; and in every store reached from the
empty store the posts have the ids `post_1`, `post_2`, ... in order, which are
pairwise distinct. -/
theorem postIds_unique :
    (∀ (s : SocialNetwork) (content now : Str), isLoggedIn s = true →
      ∃ p : Post, (postMessage s content now).1.posts = s.posts ++ [p] ∧
        p.postId = "post_".toList ++ Nat.toDigits 10 (s.posts.length + 1)) ∧
    (∀ ops : List Op,
      (run emptyStore ops).posts.map Post.postId =
        postIdsUpTo (run emptyStore ops).posts.length) ∧
    (∀ ops : List Op,
      (run emptyStore ops).posts.Pairwise (fun p q => p.postId ≠ q.postId)) := by
  refine ⟨?_, ?_, ?_⟩
  · intro s content now hlog
    rcases postMessage_posts s content now with h | ⟨p, hp, _, hid, _⟩
    · exfalso
      unfold postMessage at h
      simp only [hlog, Bool.not_true, Bool.false_eq_true, if_false] at h
      split at h <;> simp at h
    · exact ⟨p, hp, hid⟩
  · intro ops
    exact run_postIds ops emptyStore rfl
  · intro ops
    have hids := run_postIds ops emptyStore rfl
    have hnd : ((run emptyStore ops).posts.map Post.postId).Nodup := by
      rw [hids]; exact postIdsUpTo_nodup _
    exact (List.pairwise_map.mp hnd)

/-- Witness of C21: alice, logged in, posts in a store without posts and in a
store with two posts. -/
theorem postIds_unique_witness :
    isLoggedIn friendsStore = true ∧
    (∃ p : Post, (postMessage friendsStore "hello".toList "2024-05-01 10:00:00".toList).1.posts =
        friendsStore.posts ++ [p] ∧
      p.postId = "post_".toList ++ Nat.toDigits 10 (friendsStore.posts.length + 1)) ∧
    (postMessage friendsStore "hello".toList "2024-05-01 10:00:00".toList).1.posts.map
      Post.postId = ["post_1".toList] ∧
    (postMessage scenarioStore "again".toList "2024-05-01 10:00:09".toList).1.posts.map
      Post.postId = ["post_1".toList, "post_2".toList, "post_3".toList] :=
  ⟨by decide,
   postIds_unique.1 friendsStore "hello".toList "2024-05-01 10:00:00".toList (by decide),
   by decide, by decide⟩

/-! ## Posts are only appended -/

/-- C24: `registerUser`, `loginUser`, `logoutUser`, `addFriend`, `removeFriend`
and a `postMessage` that is refused leave the post list as it is (`viewFeed` is
a const method and returns no store); a `postMessage` of a logged-in user
appends exactly one post, whose username is that user; so the old post list is
a prefix of the new one after every call and every sequence of calls, and the
number of posts never decreases. -/
theorem posts_append_only :
    (∀ (s : SocialNetwork) (op : Op), (∀ content now : Str, op ≠ Op.post content now) →
      (step s op).posts = s.posts) ∧
    (∀ (s : SocialNetwork) (content now : Str), isLoggedIn s = false →
      (postMessage s content now).1.posts = s.posts) ∧
    (∀ (s : SocialNetwork) (content now : Str), isLoggedIn s = true →
      ∃ p : Post, (postMessage s content now).1.posts = s.posts ++ [p] ∧
        p.username = s.loggedInUser) ∧
    (∀ (s : SocialNetwork) (op : Op), s.posts <+: (step s op).posts) ∧
    (∀ (s : SocialNetwork) (ops : List Op),
      s.posts <+: (run s ops).posts ∧ s.posts.length ≤ (run s ops).posts.length) := by
  have hstep : ∀ (s : SocialNetwork) (op : Op), s.posts <+: (step s op).posts := by
    intro s op
    rcases step_posts s op with h | ⟨p, hp, _, _⟩
    · rw [h]
    · rw [hp]; exact List.prefix_append _ _
  have hrun : ∀ (ops : List Op) (s : SocialNetwork), s.posts <+: (run s ops).posts := by
    intro ops
    induction ops with
    | nil => intro s; exact List.prefix_refl _
    | cons op ops ih => intro s; exact (hstep s op).trans (ih (step s op))
  refine ⟨?_, ?_, ?_, hstep, ?_⟩
  · intro s op hop
    cases op with
    | register username password bio => exact registerUser_posts s _ _ _
    | login username password => exact loginUser_posts s _ _
    | logout => rfl
    | addFriend friendUsername => exact addFriend_posts s _
    | removeFriend friendUsername => exact removeFriend_posts s _
    | post content now => exact absurd rfl (hop content now)
  · intro s content now hlog
    simp [postMessage, hlog]
  · intro s content now hlog
    rcases postMessage_posts s content now with h | ⟨p, hp, _, _, hu⟩
    · exfalso
      unfold postMessage at h
      simp only [hlog, Bool.not_true, Bool.false_eq_true, if_false] at h
      split at h <;> simp at h
    · exact ⟨p, hp, hu⟩
  · intro s ops
    exact ⟨hrun ops s, (hrun ops s).length_le⟩

/-- Witness of C24: in a store with two posts, a failed login keeps the posts
and a post of alice appends one. -/
theorem posts_append_only_witness :
    (∀ content now : Str, Op.login "bob".toList "x".toList ≠ Op.post content now) ∧
    (step scenarioStore (Op.login "bob".toList "x".toList)).posts = scenarioStore.posts ∧
    isLoggedIn emptyStore = false ∧
    (postMessage emptyStore "hello".toList "2024-05-01 10:00:00".toList).1.posts =
      emptyStore.posts ∧
    isLoggedIn scenarioStore = true ∧
    (∃ p : Post, (postMessage scenarioStore "again".toList "2024-05-01 10:00:09".toList).1.posts =
        scenarioStore.posts ++ [p] ∧ p.username = scenarioStore.loggedInUser) :=
  ⟨fun _ _ h => Op.noConfusion h,
   posts_append_only.1 scenarioStore (Op.login "bob".toList "x".toList)
     (fun _ _ h => Op.noConfusion h),
   by decide,
   posts_append_only.2.1 emptyStore "hello".toList "2024-05-01 10:00:00".toList (by decide),
   by decide,
   posts_append_only.2.2.1 scenarioStore "again".toList "2024-05-01 10:00:09".toList
     (by decide)⟩

/-! ## No self-loop and no duplicate friend -/

theorem mapSet_forall (P : Str × List Str → Prop) (m : FriendMap) (k : Str) (v : List Str)
    (hm : ∀ e ∈ m, P e) (hk : P (k, v)) : ∀ e ∈ mapSet m k v, P e := by
  intro e he
  rcases mem_mapSet m k v e he with h | h
  · exact hm e h
  · rw [h]; exact hk

theorem cleanEntry_eraseRemove (k x : Str) (v : List Str) (h : CleanEntry (k, v)) :
    CleanEntry (k, eraseRemove v x) := by
  unfold CleanEntry at h ⊢
  unfold eraseRemove
  exact ⟨fun hmem => h.1 (List.mem_filter.mp hmem).1, h.2.filter _⟩

theorem cleanEntry_friendsOf (m : FriendMap) (h : ∀ e ∈ m, CleanEntry e) (k : Str) :
    k ∉ friendsOf m k ∧ (friendsOf m k).Nodup := by
  unfold friendsOf
  cases hf : mapFind m k with
  | none => simp
  | some v => exact h (k, v) (mapFind_mem m k v hf)

theorem addFriend_clean (s : SocialNetwork) (friendUsername : Str)
    (hm : Mutual s.friendships) (hc : ∀ e ∈ s.friendships, CleanEntry e) :
    ∀ e ∈ (addFriend s friendUsername).1.friendships, CleanEntry e := by
  cases hout : (addFriend s friendUsername).2 with
  | nowFriends =>
    obtain ⟨_, hne, _, hnot, heq⟩ := addFriend_success s friendUsername hout
    rw [heq]
    have hself := cleanEntry_friendsOf s.friendships hc s.loggedInUser
    have hother := cleanEntry_friendsOf s.friendships hc friendUsername
    have hne' : ¬ s.loggedInUser = friendUsername := fun e => hne e.symm
    have h1 : ∀ e ∈ mapPushBack s.friendships s.loggedInUser friendUsername, CleanEntry e := by
      apply mapSet_forall CleanEntry _ _ _ hc
      show s.loggedInUser ∉ friendsOf s.friendships s.loggedInUser ++ [friendUsername] ∧
        (friendsOf s.friendships s.loggedInUser ++ [friendUsername]).Nodup
      refine ⟨?_, ?_⟩
      · simp only [List.mem_append, List.mem_singleton, not_or]
        exact ⟨hself.1, hne'⟩
      · rw [List.nodup_append]
        refine ⟨hself.2, by simp, ?_⟩
        intro a ha hb
        rw [List.mem_singleton] at hb
        exact hnot (hb ▸ ha)
    apply mapSet_forall CleanEntry _ _ _ h1
    show friendUsername ∉
        friendsOf (mapPushBack s.friendships s.loggedInUser friendUsername) friendUsername
          ++ [s.loggedInUser] ∧
      (friendsOf (mapPushBack s.friendships s.loggedInUser friendUsername) friendUsername
          ++ [s.loggedInUser]).Nodup
    rw [friendsOf_mapPushBack, if_neg hne']
    have hnotself : s.loggedInUser ∉ friendsOf s.friendships friendUsername :=
      fun hmem => hnot ((hm _ _).mp hmem)
    refine ⟨?_, ?_⟩
    · simp only [List.mem_append, List.mem_singleton, not_or]
      exact ⟨hother.1, hne⟩
    · rw [List.nodup_append]
      refine ⟨hother.2, by simp, ?_⟩
      intro a ha hb
      rw [List.mem_singleton] at hb
      exact hnotself (hb ▸ ha)
  | _ =>
    have hsame : (addFriend s friendUsername).1 = s := by
      unfold addFriend at hout ⊢
      repeat' split
      all_goals first | rfl | (simp_all)
    rw [hsame]
    exact hc

theorem removeFriend_clean (s : SocialNetwork) (friendUsername : Str)
    (hc : ∀ e ∈ s.friendships, CleanEntry e) :
    ∀ e ∈ (removeFriend s friendUsername).1.friendships, CleanEntry e := by
  unfold removeFriend
  split
  · exact hc
  · split
    · exact hc
    · rename_i cur hcur
      split
      · exact hc
      · have h1 : ∀ e ∈ mapSet s.friendships s.loggedInUser (eraseRemove cur friendUsername),
            CleanEntry e :=
          mapSet_forall CleanEntry _ _ _ hc
            (cleanEntry_eraseRemove _ _ _ (hc _ (mapFind_mem _ _ _ hcur)))
        simp only
        split
        · rename_i tgt htgt
          exact mapSet_forall CleanEntry _ _ _ h1
            (cleanEntry_eraseRemove _ _ _ (h1 _ (mapFind_mem _ _ _ htgt)))
        · exact h1

theorem step_clean (s : SocialNetwork) (op : Op)
    (h : Mutual s.friendships ∧ ∀ e ∈ s.friendships, CleanEntry e) :
    Mutual (step s op).friendships ∧ ∀ e ∈ (step s op).friendships, CleanEntry e := by
  refine ⟨step_mutual s op h.1, ?_⟩
  cases op with
  | register username password bio =>
    simp only [step, registerUser_friendships]; exact h.2
  | login username password =>
    simp only [step, loginUser_friendships]; exact h.2
  | logout => exact h.2
  | addFriend friendUsername => exact addFriend_clean s friendUsername h.1 h.2
  | removeFriend friendUsername => exact removeFriend_clean s friendUsername h.2
  | post content now =>
    simp only [step, postMessage_friendships]; exact h.2

theorem run_clean (ops : List Op) (s : SocialNetwork)
    (h : Mutual s.friendships ∧ ∀ e ∈ s.friendships, CleanEntry e) :
    Mutual (run s ops).friendships ∧ ∀ e ∈ (run s ops).friendships, CleanEntry e := by
  induction ops generalizing s with
  | nil => exact h
  | cons op ops ih => exact ih (step s op) (step_clean s op h)

/-- C23: in every store reached from the empty store by any sequence of
register, login, logout, addFriend, removeFriend and post calls, no username
is in its own friend list and no friend list holds a username twice. -/
theorem no_self_loops_no_duplicates (ops : List Op) :
    (∀ a : Str, a ∉ friendsOf (run emptyStore ops).friendships a) ∧
    (∀ a : Str, (friendsOf (run emptyStore ops).friendships a).Nodup) ∧
    NoSelfLoops (run emptyStore ops).friendships ∧
    NoDuplicateFriends (run emptyStore ops).friendships := by
  have h := (run_clean ops emptyStore ⟨mutual_emptyStore, by simp [emptyStore]⟩).2
  refine ⟨fun a => (cleanEntry_friendsOf _ h a).1, fun a => (cleanEntry_friendsOf _ h a).2,
    fun e he => (h e he).1, fun e he => (h e he).2⟩

/-! ## Decoding any line -/

theorem extractUntil_eq (delim : Char) (text : Str) :
    extractUntil delim text =
      (text.takeWhile (fun c => c != delim),
        if delim ∈ text then some ((text.dropWhile (fun c => c != delim)).drop 1) else none) := by
  induction text with
  | nil => simp [extractUntil]
  | cons c cs ih =>
    simp only [extractUntil]
    by_cases hc : c = delim
    · subst hc
      simp
    · have hne : ¬ delim = c := fun e => hc e.symm
      simp only [hc, if_false, ih, List.mem_cons, hne, false_or]
      simp [List.takeWhile_cons, List.dropWhile_cons, hc]

theorem getline_ofText_mem (text : Str) (delim : Char) (h : delim ∈ text) :
    getline (IStream.ofText text) [] delim =
      (IStream.ofText ((text.dropWhile (fun c => c != delim)).drop 1),
        text.takeWhile (fun c => c != delim)) := by
  simp [getline, IStream.ofText, extractUntil_eq, h]

theorem getline_ofText_not_mem (text : Str) (delim : Char) (h : delim ∉ text) :
    getline (IStream.ofText text) [] delim =
      ({ buf := [], eofbit := true, failbit := text.isEmpty }, text) := by
  simp [getline, IStream.ofText, extractUntil_of_not_mem _ _ h]

theorem getline_not_good (buf : Str) (failbit : Bool) (delim : Char) :
    getline { buf := buf, eofbit := true, failbit := failbit } [] delim =
      ({ buf := buf, eofbit := true, failbit := true }, []) := by
  simp [getline]

theorem not_mem_rest (text : Str) (c delim : Char) (h : c ∉ text) :
    c ∉ (text.dropWhile (fun x => x != delim)).drop 1 :=
  fun hm => h ((List.dropWhile_sublist _).subset (List.mem_of_mem_drop hm))

theorem decodeUser_fields (line : Str) (hline : '\n' ∉ line) :
    ∃ a b c : Str, specFields 3 line = [a, b, c] ∧ decodeUser line = User.mk a b c := by
  unfold decodeUser
  by_cases h1 : '|' ∈ line
  · have hr1 := not_mem_rest line '\n' '|' hline
    simp only [getline_ofText_mem line '|' h1]
    by_cases h2 : '|' ∈ (line.dropWhile (fun c => c != '|')).drop 1
    · have hr2 := not_mem_rest _ '\n' '|' hr1
      simp only [getline_ofText_mem _ '|' h2, getline_last _ _ hr2]
      exact ⟨_, _, _, by simp only [specFields, h1, h2, if_true, if_false, List.replicate], rfl⟩
    · simp only [getline_ofText_not_mem _ '|' h2, getline_not_good]
      exact ⟨_, _, _, by simp only [specFields, h1, h2, if_true, if_false, List.replicate], rfl⟩
  · simp only [getline_ofText_not_mem line '|' h1, getline_not_good]
    exact ⟨_, _, _, by simp only [specFields, h1, if_true, if_false, List.replicate], rfl⟩

theorem decodePost_fields (line : Str) (hline : '\n' ∉ line) :
    ∃ a b c d : Str, specFields 4 line = [a, b, c, d] ∧ decodePost line = Post.mk a b d c := by
  unfold decodePost
  by_cases h1 : '|' ∈ line
  · have hr1 := not_mem_rest line '\n' '|' hline
    simp only [getline_ofText_mem line '|' h1]
    by_cases h2 : '|' ∈ (line.dropWhile (fun c => c != '|')).drop 1
    · have hr2 := not_mem_rest _ '\n' '|' hr1
      simp only [getline_ofText_mem _ '|' h2]
      by_cases h3 : '|' ∈ (((line.dropWhile (fun c => c != '|')).drop 1).dropWhile
          (fun c => c != '|')).drop 1
      · have hr3 := not_mem_rest _ '\n' '|' hr2
        simp only [getline_ofText_mem _ '|' h3, getline_last _ _ hr3]
        exact ⟨_, _, _, _, by simp only [specFields, h1, h2, h3, if_true, if_false, List.replicate], rfl⟩
      · simp only [getline_ofText_not_mem _ '|' h3, getline_not_good]
        exact ⟨_, _, _, _, by simp only [specFields, h1, h2, h3, if_true, if_false, List.replicate], rfl⟩
    · simp only [getline_ofText_not_mem _ '|' h2, getline_not_good]
      exact ⟨_, _, _, _, by simp only [specFields, h1, h2, if_true, if_false, List.replicate], rfl⟩
  · simp only [getline_ofText_not_mem line '|' h1, getline_not_good]
    exact ⟨_, _, _, _, by simp only [specFields, h1, if_true, if_false, List.replicate], rfl⟩

/-- C22: every line (a text without newline) decodes to a user record and to
a post record; the fields are the `|`-separated parts in order, the last field
taking the rest of the line, and every missing trailing field is empty; a line
without delimiter gives a record with that line as first field and the other
fields empty. -/
theorem decode_tolerance (line : Str) (hline : '\n' ∉ line) :
    (∃ a b c : Str, specFields 3 line = [a, b, c] ∧ decodeUser line = User.mk a b c) ∧
    (∃ a b c d : Str, specFields 4 line = [a, b, c, d] ∧
      decodePost line = Post.mk a b d c) ∧
    ('|' ∉ line → decodeUser line = User.mk line [] [] ∧
      decodePost line = Post.mk line [] [] []) := by
  refine ⟨decodeUser_fields line hline, decodePost_fields line hline, ?_⟩
  intro h1
  constructor
  · unfold decodeUser
    simp only [getline_ofText_not_mem line '|' h1, getline_not_good]
  · unfold decodePost
    simp only [getline_ofText_not_mem line '|' h1, getline_not_good]

/-- Witness of C22: the lines `alice`, `alice|pw`, `a|b|c|d` and `post_1|bob`. -/
theorem decode_tolerance_witness :
    '\n' ∉ "alice".toList ∧ '|' ∉ "alice".toList ∧
    decodeUser "alice".toList = User.mk "alice".toList [] [] ∧
    decodePost "alice".toList = Post.mk "alice".toList [] [] [] ∧
    decodeUser "alice|pw".toList = User.mk "alice".toList "pw".toList [] ∧
    decodeUser "a|b|c|d".toList = User.mk "a".toList "b".toList "c|d".toList ∧
    decodePost "post_1|bob".toList = Post.mk "post_1".toList "bob".toList [] [] ∧
    specFields 3 "alice|pw".toList = ["alice".toList, "pw".toList, []] ∧
    (∃ a b c : Str, specFields 3 "a|b|c|d".toList = [a, b, c] ∧
      decodeUser "a|b|c|d".toList = User.mk a b c) :=
  ⟨by decide, by decide,
   ((decode_tolerance "alice".toList (by decide)).2.2 (by decide)).1,
   ((decode_tolerance "alice".toList (by decide)).2.2 (by decide)).2,
   by decide, by decide, by decide, by decide,
   (decode_tolerance "a|b|c|d".toList (by decide)).1⟩

/-! ## Timestamps -/

theorem strLt_append (a b x y : Str) (hlen : a.length = b.length) :
    strLt (a ++ x) (b ++ y) = true ↔ (strLt a b = true ∨ (a = b ∧ strLt x y = true)) := by
  induction a generalizing b with
  | nil =>
    cases b with
    | nil => simp [strLt]
    | cons d bs => simp at hlen
  | cons c as ih =>
    cases b with
    | nil => simp at hlen
    | cons d bs =>
      have hlen' : as.length = bs.length := by simpa using hlen
      simp only [List.cons_append, strLt]
      by_cases hcd : c < d
      · simp [hcd]
      · by_cases hdc : d < c
        · have hne : ¬ c = d := fun e => by rw [e] at hdc; exact lt_irrefl _ hdc
          simp [hcd, hdc, hne]
        · have heq : c = d := le_antisymm (not_lt.mp hdc) (not_lt.mp hcd)
          subst heq
          simp only [hcd, if_false, List.cons.injEq, true_and]
          exact ih bs hlen'

theorem strLt_cons_same (c : Char) (x y : Str) : strLt (c :: x) (c :: y) = strLt x y := by
  simp [strLt]

theorem digitChar_lt (m n : Nat) (hm : m < 10) (hn : n < 10) :
    Nat.digitChar m < Nat.digitChar n ↔ m < n := by
  interval_cases m <;> interval_cases n <;> decide

theorem digitChar_inj (m n : Nat) (hm : m < 10) (hn : n < 10)
    (h : Nat.digitChar m = Nat.digitChar n) : m = n := by
  have h1 : ¬ Nat.digitChar m < Nat.digitChar n := by rw [h]; exact lt_irrefl _
  have h2 : ¬ Nat.digitChar n < Nat.digitChar m := by rw [h]; exact lt_irrefl _
  rw [digitChar_lt m n hm hn] at h1
  rw [digitChar_lt n m hn hm] at h2
  omega

theorem strLt_pad2 (m n : Nat) (hm : m < 100) (hn : n < 100) :
    strLt (pad2 m) (pad2 n) = true ↔ m < n := by
  have hm1 : m / 10 < 10 := by omega
  have hn1 : n / 10 < 10 := by omega
  have hm2 : m % 10 < 10 := by omega
  have hn2 : n % 10 < 10 := by omega
  simp only [pad2, strLt, digitChar_lt _ _ hm1 hn1, digitChar_lt _ _ hn1 hm1,
    digitChar_lt _ _ hm2 hn2, digitChar_lt _ _ hn2 hm2]
  by_cases h1 : m / 10 < n / 10
  · simp only [h1, if_true, true_iff]; omega
  · by_cases h2 : n / 10 < m / 10
    · simp only [h1, h2, if_true, if_false, Bool.false_eq_true, false_iff]; omega
    · by_cases h3 : m % 10 < n % 10
      · simp only [h1, h2, h3, if_true, if_false, true_iff]; omega
      · by_cases h4 : n % 10 < m % 10
        · simp only [h1, h2, h3, h4, if_true, if_false, Bool.false_eq_true, false_iff]; omega
        · simp only [h1, h2, h3, h4, if_false, Bool.false_eq_true, false_iff]; omega

theorem pad2_inj (m n : Nat) (hm : m < 100) (hn : n < 100) : pad2 m = pad2 n ↔ m = n := by
  constructor
  · intro h
    have h1 : ¬ strLt (pad2 m) (pad2 n) = true := by rw [h, strLt_irrefl]; simp
    have h2 : ¬ strLt (pad2 n) (pad2 m) = true := by rw [h, strLt_irrefl]; simp
    rw [strLt_pad2 m n hm hn] at h1
    rw [strLt_pad2 n m hn hm] at h2
    omega
  · intro h
    rw [h]

theorem pad2_length (n : Nat) : (pad2 n).length = 2 := rfl

theorem pad4_length (n : Nat) : (pad4 n).length = 4 := rfl

theorem strLt_pad4 (m n : Nat) (hm : m < 10000) (hn : n < 10000) :
    strLt (pad4 m) (pad4 n) = true ↔ m < n := by
  have hm1 : m / 100 < 100 := by omega
  have hn1 : n / 100 < 100 := by omega
  have hm2 : m % 100 < 100 := by omega
  have hn2 : n % 100 < 100 := by omega
  unfold pad4
  rw [strLt_append (pad2 (m / 100)) (pad2 (n / 100)) _ _ rfl, strLt_pad2 _ _ hm1 hn1,
    pad2_inj _ _ hm1 hn1]
  have h0 : strLt (pad2 (m % 100) ++ []) (pad2 (n % 100) ++ []) = true ↔ m % 100 < n % 100 := by
    simp only [List.append_nil]
    exact strLt_pad2 _ _ hm2 hn2
  rw [← List.append_nil (pad2 (m % 100)), ← List.append_nil (pad2 (n % 100)), h0]
  omega

theorem pad4_inj (m n : Nat) (hm : m < 10000) (hn : n < 10000) : pad4 m = pad4 n ↔ m = n := by
  constructor
  · intro h
    have h1 : ¬ strLt (pad4 m) (pad4 n) = true := by rw [h, strLt_irrefl]; simp
    have h2 : ¬ strLt (pad4 n) (pad4 m) = true := by rw [h, strLt_irrefl]; simp
    rw [strLt_pad4 m n hm hn] at h1
    rw [strLt_pad4 n m hn hm] at h2
    omega
  · intro h
    rw [h]

theorem formatTimestamp_eq (t : Tm) :
    formatTimestamp t =
      pad4 t.year ++ ('-' :: (pad2 t.month ++ ('-' :: (pad2 t.day ++ (' ' ::
        (pad2 t.hour ++ (':' :: (pad2 t.minute ++ (':' :: (pad2 t.second ++ [])))))))))) := by
  simp [formatTimestamp]

theorem strLt_formatTimestamp (a b : Tm) (ha : a.Fits) (hb : b.Fits) :
    strLt (formatTimestamp b) (formatTimestamp a) = true ↔ a.Later b := by
  obtain ⟨ha1, ha2, ha3, ha4, ha5, ha6⟩ := ha
  obtain ⟨hb1, hb2, hb3, hb4, hb5, hb6⟩ := hb
  rw [formatTimestamp_eq, formatTimestamp_eq]
  rw [strLt_append (pad4 b.year) (pad4 a.year) _ _ rfl, strLt_cons_same,
    strLt_append (pad2 b.month) (pad2 a.month) _ _ rfl, strLt_cons_same,
    strLt_append (pad2 b.day) (pad2 a.day) _ _ rfl, strLt_cons_same,
    strLt_append (pad2 b.hour) (pad2 a.hour) _ _ rfl, strLt_cons_same,
    strLt_append (pad2 b.minute) (pad2 a.minute) _ _ rfl, strLt_cons_same,
    strLt_append (pad2 b.second) (pad2 a.second) _ _ rfl]
  rw [strLt_pad4 _ _ hb1 ha1, pad4_inj _ _ hb1 ha1, strLt_pad2 _ _ hb2 ha2,
    pad2_inj _ _ hb2 ha2, strLt_pad2 _ _ hb3 ha3, pad2_inj _ _ hb3 ha3,
    strLt_pad2 _ _ hb4 ha4, pad2_inj _ _ hb4 ha4, strLt_pad2 _ _ hb5 ha5,
    pad2_inj _ _ hb5 ha5, strLt_pad2 _ _ hb6 ha6]
  have hnil : strLt ([] : Str) [] = false := rfl
  simp only [Tm.Later, hnil, Bool.false_eq_true, and_false, or_false]

theorem toDigits_four (y : Nat) (h1 : 1000 ≤ y) (h2 : y < 10000) :
    Nat.toDigits 10 y = pad4 y := by
  have hf : y + 1 = (y - 3) + 1 + 1 + 1 + 1 := by omega
  have e1 : ¬ y / 10 = 0 := by omega
  have e2 : ¬ y / 10 / 10 = 0 := by omega
  have e3 : ¬ y / 10 / 10 / 10 = 0 := by omega
  have e4 : y / 10 / 10 / 10 / 10 = 0 := by omega
  have d1 : y / 10 / 10 / 10 % 10 = y / 100 / 10 := by omega
  have d2 : y / 10 / 10 % 10 = y / 100 % 10 := by omega
  have d3 : y / 10 % 10 = y % 100 / 10 := by omega
  have d4 : y % 10 = y % 100 % 10 := by omega
  rw [Nat.toDigits, hf]
  simp only [Nat.toDigitsCore, e1, e2, e3, e4, if_true, if_false, d1, d2, d3]
  rw [d4]
  rfl

/-- C25: for two timestamps in the fixed zero-padded format
`YYYY-MM-DD HH:MM:SS`, the comparator of the feed, `a.timestamp > b.timestamp`
on strings, holds exactly when the time of `a` is strictly later than the time
of `b` as the tuple (year, month, day, hour, minute, second); and
`getCurrentTimestamp` prints this format for the years 1000 to 9999. -/
theorem comparator_is_chronological :
    (∀ (a b : Post) (ta tb : Tm), ta.Fits → tb.Fits →
      a.timestamp = formatTimestamp ta → b.timestamp = formatTimestamp tb →
      (comparePostsByTimestamp a b = true ↔ ta.Later tb)) ∧
    (∀ tm : Tm, tm.Fits → 1000 ≤ tm.year → getCurrentTimestamp tm = formatTimestamp tm) := by
  constructor
  · intro a b ta tb hta htb ha hb
    unfold comparePostsByTimestamp
    rw [ha, hb]
    exact strLt_formatTimestamp ta tb hta htb
  · intro tm hfits hyear
    unfold getCurrentTimestamp formatTimestamp
    rw [toDigits_four tm.year hyear hfits.1]

/-- Witness of C25: a post of 2024-01-01 00:00:00 and one of 2023-12-31 23:59:59. -/
theorem comparator_is_chronological_witness :
    newYear.Fits ∧ newYearsEve.Fits ∧ 1000 ≤ newYear.year ∧
    formatTimestamp newYear = "2024-01-01 00:00:00".toList ∧
    formatTimestamp newYearsEve = "2023-12-31 23:59:59".toList ∧
    getCurrentTimestamp newYear = "2024-01-01 00:00:00".toList ∧
    getCurrentTimestamp newYear = formatTimestamp newYear ∧
    (comparePostsByTimestamp
        (Post.mk "post_2".toList "bob".toList "hey".toList (formatTimestamp newYear))
        (Post.mk "post_1".toList "alice".toList "hello".toList (formatTimestamp newYearsEve))
      = true ↔ newYear.Later newYearsEve) ∧
    newYear.Later newYearsEve :=
  ⟨by unfold Tm.Fits; decide, by unfold Tm.Fits; decide, by decide, by decide, by decide,
   by decide,
   comparator_is_chronological.2 newYear (by unfold Tm.Fits; decide) (by decide),
   comparator_is_chronological.1 _ _ newYear newYearsEve (by unfold Tm.Fits; decide)
     (by unfold Tm.Fits; decide) rfl rfl,
   by unfold Tm.Later; decide⟩

end SocialNet

namespace GuessingGame

/-! ## The secret number -/

/-- In a range whose width `maxRange - minRange + 1` is an `int`, the secret
number is computed without undefined operation and lies in the range. -/
theorem randomNumber_in_range (r minRange maxRange : Int) (hr0 : 0 ≤ r)
    (hmin : intMin ≤ minRange) (hmax : maxRange ≤ intMax) (hlt : minRange < maxRange)
    (hspan : maxRange - minRange < intMax) :
    ∃ secret : Int, randomNumber r minRange maxRange = some secret ∧
      minRange ≤ secret ∧ secret ≤ maxRange := by
  simp only [intMin, intMax] at *
  have hd : intSub maxRange minRange = some (maxRange - minRange) := by
    unfold intSub checked
    simp only [intMin, intMax]
    rw [if_pos (by omega)]
  have hn : intAdd (maxRange - minRange) 1 = some (maxRange - minRange + 1) := by
    unfold intAdd checked
    simp only [intMin, intMax]
    rw [if_pos (by omega)]
  have hpos : 0 < maxRange - minRange + 1 := by omega
  have hm : intMod r (maxRange - minRange + 1) = some (r % (maxRange - minRange + 1)) := by
    unfold intMod
    rw [if_neg (by omega), if_neg (by omega), Int.tmod_eq_emod hr0 (by omega)]
  have h0 : 0 ≤ r % (maxRange - minRange + 1) := Int.emod_nonneg _ (by omega)
  have h1 : r % (maxRange - minRange + 1) < maxRange - minRange + 1 :=
    Int.emod_lt_of_pos _ hpos
  have hs : intAdd (r % (maxRange - minRange + 1)) minRange =
      some (r % (maxRange - minRange + 1) + minRange) := by
    unfold intAdd checked
    simp only [intMin, intMax]
    rw [if_pos (by omega)]
  refine ⟨r % (maxRange - minRange + 1) + minRange, ?_, by omega, by omega⟩
  unfold randomNumber
  simp only [hd, Option.some_bind, hn, hm, hs]

/-- The secret number of the three presets lies in the range for every value
of `rand()`. -/
theorem randomNumber_presets (r difficultyChoice a b c : Int) (hr0 : 0 ≤ r)
    (hchoice : difficultyChoice = 1 ∨ difficultyChoice = 2 ∨ difficultyChoice = 3) :
    ∃ secret : Int,
      randomNumber r (settings difficultyChoice a b c).minRange
        (settings difficultyChoice a b c).maxRange = some secret ∧
      (settings difficultyChoice a b c).minRange ≤ secret ∧
      secret ≤ (settings difficultyChoice a b c).maxRange := by
  rcases hchoice with h | h | h
  · subst h
    have e : settings 1 a b c = { minRange := 1, maxRange := 50, maxAttempts := 7 } := rfl
    rw [e]
    exact randomNumber_in_range r 1 50 hr0 (by decide) (by decide) (by decide) (by decide)
  · subst h
    have e : settings 2 a b c = { minRange := 1, maxRange := 100, maxAttempts := 10 } := rfl
    rw [e]
    exact randomNumber_in_range r 1 100 hr0 (by decide) (by decide) (by decide) (by decide)
  · subst h
    have e : settings 3 a b c = { minRange := 1, maxRange := 200, maxAttempts := 12 } := rfl
    rw [e]
    exact randomNumber_in_range r 1 200 hr0 (by decide) (by decide) (by decide) (by decide)

/-- C26, at custom ranges that the input loops accept: for the range from the
least to the greatest `int` the difference `maxRange - minRange` is no `int`,
and wrapped around it makes the divisor `maxRange - minRange + 1` zero; for the
range from 0 to the greatest `int` the sum `maxRange - minRange + 1` is no
`int`. The secret number is undefined for every value of `rand()`. -/
theorem randomNumber_wide_ranges :
    CustomAccepted intMin intMax 5 ∧
    settings 4 intMin intMax 5 = { minRange := intMin, maxRange := intMax, maxAttempts := 5 } ∧
    intSub intMax intMin = none ∧
    wrap (wrap (intMax - intMin) + 1) = 0 ∧
    (∀ r : Int, randomNumber r intMin intMax = none) ∧
    CustomAccepted 0 intMax 5 ∧
    intSub intMax 0 = some intMax ∧
    intAdd intMax 1 = none ∧
    (∀ r : Int, randomNumber r 0 intMax = none) := by
  refine ⟨by unfold CustomAccepted; decide, by decide, by decide, by decide, ?_,
    by unfold CustomAccepted; decide, by decide, by decide, ?_⟩
  · intro r
    have h : intSub intMax intMin = none := by decide
    simp [randomNumber, h]
  · intro r
    have h1 : intSub intMax 0 = some intMax := by decide
    have h2 : intAdd intMax 1 = none := by decide
    simp [randomNumber, h1, h2]

/-! ## A round -/

theorem guessLoop_secret_zero (maxAttempts : Int) (inputs : List GuessInput) :
    guessLoop 0 maxAttempts roundStart inputs = (roundStart, true) := by
  cases inputs with
  | nil => simp [guessLoop, roundStart]
  | cons input rest => simp [guessLoop, roundStart]

/-- C27, at a custom range that holds 0: with the range 0 to 10 and `rand()`
giving 0 the secret number is 0, the start value of `guess`; the loop then ends
before any guess is read, whatever the player would type and whatever
`maxAttempts` is, and neither the congratulation nor the "ran out of attempts"
message is printed. -/
theorem round_with_secret_zero :
    CustomAccepted 0 10 3 ∧
    settings 4 0 10 3 = { minRange := 0, maxRange := 10, maxAttempts := 3 } ∧
    randomNumber 0 0 10 = some 0 ∧
    (∀ (maxAttempts : Int) (inputs : List GuessInput),
      playRound 0 maxAttempts inputs =
        { entered := [], attempts := 0, ended := true, won := false, lost := false }) := by
  refine ⟨by unfold CustomAccepted; decide, by decide, by decide, ?_⟩
  intro maxAttempts inputs
  unfold playRound
  rw [guessLoop_secret_zero]
  simp [roundStart]

theorem guessLoop_inv (randomNumber maxAttempts : Int) :
    ∀ (inputs : List GuessInput) (st : RoundState), AllNumbers inputs →
      RoundInv randomNumber maxAttempts st →
      RoundInv randomNumber maxAttempts (guessLoop randomNumber maxAttempts st inputs).1 ∧
      ((guessLoop randomNumber maxAttempts st inputs).2 = true →
        (guessLoop randomNumber maxAttempts st inputs).1.guess = randomNumber ∨
        maxAttempts ≤ (guessLoop randomNumber maxAttempts st inputs).1.attempts) := by
  intro inputs
  induction inputs with
  | nil =>
    intro st _ hinv
    simp only [guessLoop]
    refine ⟨hinv, ?_⟩
    intro hflag
    by_cases hg : st.guess = randomNumber
    · exact Or.inl hg
    · right
      by_contra hlt
      have hcond : st.guess ≠ randomNumber ∧ st.attempts < maxAttempts := ⟨hg, by omega⟩
      simp [hcond] at hflag
  | cons input rest ih =>
    intro st hall hinv
    have hrest : AllNumbers rest := fun i hi => hall i (List.mem_cons_of_mem _ hi)
    obtain ⟨g, hg⟩ := hall input (by simp)
    subst hg
    simp only [guessLoop]
    by_cases hcond : st.guess ≠ randomNumber ∧ st.attempts < maxAttempts
    · rw [if_pos hcond]
      apply ih _ hrest
      obtain ⟨h1, _, h3, h4⟩ := hinv
      have hnot : randomNumber ∉ st.entered := fun hm => hcond.1 (h4.mpr hm)
      have hcong : st.congratulated = false := by
        cases hc : st.congratulated with
        | false => rfl
        | true => exact absurd (h3.mp hc) hnot
      refine ⟨?_, ?_, ?_, ?_⟩
      · simp only [List.length_append, List.length_singleton, Nat.cast_add, Nat.cast_one]
        omega
      · show st.attempts + 1 ≤ maxAttempts
        omega
      · simp only [hcong, Bool.false_or, beq_iff_eq, List.mem_append, List.mem_singleton, hnot,
          false_or]
        exact eq_comm
      · simp only [List.mem_append, List.mem_singleton, hnot, false_or]
        exact eq_comm
    · rw [if_neg hcond]
      refine ⟨hinv, ?_⟩
      intro _
      by_cases hg : st.guess = randomNumber
      · exact Or.inl hg
      · right
        by_contra hlt
        have hlt' : ¬ maxAttempts ≤ st.attempts := hlt
        exact hcond ⟨hg, by omega⟩

theorem guessLoop_ends (randomNumber maxAttempts : Int) :
    ∀ (inputs : List GuessInput) (st : RoundState), AllNumbers inputs →
      maxAttempts - st.attempts ≤ inputs.length →
      (guessLoop randomNumber maxAttempts st inputs).2 = true := by
  intro inputs
  induction inputs with
  | nil =>
    intro st _ hlen
    simp only [guessLoop]
    have hnot : ¬ (st.guess ≠ randomNumber ∧ st.attempts < maxAttempts) := by
      intro hc
      have := hc.2
      simp only [List.length_nil, Nat.cast_zero] at hlen
      omega
    simp [hnot]
  | cons input rest ih =>
    intro st hall hlen
    have hrest : AllNumbers rest := fun i hi => hall i (List.mem_cons_of_mem _ hi)
    obtain ⟨g, hg⟩ := hall input (by simp)
    subst hg
    simp only [guessLoop]
    by_cases hcond : st.guess ≠ randomNumber ∧ st.attempts < maxAttempts
    · rw [if_pos hcond]
      apply ih _ hrest
      simp only [List.length_cons, Nat.cast_add, Nat.cast_one] at hlen
      show maxAttempts - (st.attempts + 1) ≤ rest.length
      omega
    · rw [if_neg hcond]

/-- When the secret number is not 0 and every reading is a number: a round
that has ended has read a guess equal to the secret or exactly `maxAttempts`
guesses, at least one in any case; the attempts counted are the guesses read,
at most `maxAttempts`; the congratulation is printed exactly when a guess read
equals the secret and the "ran out of attempts" message exactly when none does;
and `maxAttempts` readings are enough for the round to end. -/
theorem playRound_spec (randomNumber maxAttempts : Int) (inputs : List GuessInput)
    (hsecret : randomNumber ≠ 0) (hmax : 1 ≤ maxAttempts) (hall : AllNumbers inputs) :
    (maxAttempts ≤ inputs.length → (playRound randomNumber maxAttempts inputs).ended = true) ∧
    ((playRound randomNumber maxAttempts inputs).ended = true →
      (randomNumber ∈ (playRound randomNumber maxAttempts inputs).entered ∨
        ((playRound randomNumber maxAttempts inputs).entered.length : Int) = maxAttempts) ∧
      (playRound randomNumber maxAttempts inputs).entered ≠ [] ∧
      (playRound randomNumber maxAttempts inputs).attempts =
        (playRound randomNumber maxAttempts inputs).entered.length ∧
      (playRound randomNumber maxAttempts inputs).attempts ≤ maxAttempts ∧
      ((playRound randomNumber maxAttempts inputs).won = true ↔
        randomNumber ∈ (playRound randomNumber maxAttempts inputs).entered) ∧
      ((playRound randomNumber maxAttempts inputs).lost = true ↔
        randomNumber ∉ (playRound randomNumber maxAttempts inputs).entered)) := by
  have hstart : RoundInv randomNumber maxAttempts roundStart := by
    refine ⟨rfl, ?_, ?_, ?_⟩
    · show (0 : Int) ≤ maxAttempts
      omega
    · simp [roundStart]
    · simp only [roundStart, List.not_mem_nil, iff_false]
      exact fun h => hsecret h.symm
  obtain ⟨⟨h1, h2, h3, h4⟩, hend⟩ := guessLoop_inv randomNumber maxAttempts inputs roundStart
    hall hstart
  constructor
  · intro hlen
    apply guessLoop_ends randomNumber maxAttempts inputs roundStart hall
    show maxAttempts - 0 ≤ inputs.length
    omega
  · intro hended
    simp only [playRound] at hended ⊢
    have hcases := hend hended
    have hor : randomNumber ∈ (guessLoop randomNumber maxAttempts roundStart inputs).1.entered ∨
        ((guessLoop randomNumber maxAttempts roundStart inputs).1.entered.length : Int)
          = maxAttempts := by
      rcases hcases with hg | hle
      · exact Or.inl (h4.mp hg)
      · right; omega
    refine ⟨hor, ?_, h1, h2, h3, ?_⟩
    · intro hnil
      rw [hnil] at hor
      rcases hor with hm | hl
      · simp at hm
      · simp only [List.length_nil, Nat.cast_zero] at hl
        omega
    · rw [hended]
      simp only [Bool.true_and, decide_eq_true_eq, ne_eq]
      exact not_congr h4

/-- The lemmas `randomNumber_in_range` and `playRound_spec` at the medium
preset with `rand()` giving 1206: the secret is 7, and the player wins with the
guesses 50, 3, 7. -/
theorem medium_round_example :
    randomNumber 1206 1 100 = some 7 ∧
    (∃ secret : Int, randomNumber 1206 1 100 = some secret ∧ 1 ≤ secret ∧ secret ≤ 100) ∧
    playRound 7 10 [GuessInput.number 50, GuessInput.number 3, GuessInput.number 7] =
      { entered := [50, 3, 7], attempts := 3, ended := true, won := true, lost := false } ∧
    ((playRound 7 10 [GuessInput.number 50, GuessInput.number 3, GuessInput.number 7]).won
        = true ↔
      (7 : Int) ∈
        (playRound 7 10 [GuessInput.number 50, GuessInput.number 3, GuessInput.number 7]).entered)
    := by
  have hall : AllNumbers [GuessInput.number 50, GuessInput.number 3, GuessInput.number 7] := by
    intro i hi
    simp only [List.mem_cons, List.mem_singleton, List.not_mem_nil, or_false] at hi
    rcases hi with h | h | h
    · exact ⟨50, h⟩
    · exact ⟨3, h⟩
    · exact ⟨7, h⟩
  refine ⟨by decide,
    randomNumber_in_range 1206 1 100 (by decide) (by decide) (by decide) (by decide) (by decide),
    by decide, ?_⟩
  exact ((playRound_spec 7 10 _ (by decide) (by decide) hall).2 (by decide)).2.2.2.2.1

end GuessingGame
